import Mathlib

/-!
Shallow embedding of the rendering-optimization and spatial-indexing core of the
NeaCanvas repository, together with theorems settling the frozen claims.

Sources embedded:
  - src/framework/utils/SpatialIndex.ts  (QuadTree, SpatialObject, Bounds)
  - src/framework/NeaRender.ts           (NeaSmart: queue/flush, canvas pool,
                                          dirty-region tracking)
  - src/framework/NeaInteractive.ts      (NeaInteractive.set and bounds sizing)
  - src/constants/Default.ts             (numeric limits)

JavaScript numbers are modelled as exact rationals; every quantity the claims
touch stays well inside the double-precision exact range. Identifier strings
produced from Date.now plus Math.random exist only to be unique and are
modelled by a monotone counter. Raster side effects (actual canvas drawing)
are outside the model, as the spec treats them as external collaborators.
-/

set_option linter.unusedVariables false
set_option maxRecDepth 4000

namespace NeaCanvas

/-- Axis-aligned rectangle, from interface Bounds in SpatialIndex.ts. -/
structure Bounds where
  x : ℚ
  y : ℚ
  width : ℚ
  height : ℚ
deriving DecidableEq, Repr

/-- Spatial object with a stable identifier, from interface SpatialObject. -/
structure SpatialObject where
  id : String
  x : ℚ
  y : ℚ
  width : ℚ
  height : ℚ
deriving DecidableEq, Repr

/-- The rectangle occupied by a spatial object. -/
def SpatialObject.toBounds (o : SpatialObject) : Bounds :=
  ⟨o.x, o.y, o.width, o.height⟩

/-- QuadTree.maxObjects (field default 10). -/
def maxObjects : Nat := 10

/-- QuadTree.maxLevels (field default 5). -/
def maxLevels : Nat := 5

/-- QuadTree.intersects: inclusive rectangle intersection (rectangles sharing
only an edge or corner count as intersecting). -/
def intersects (rect1 rect2 : Bounds) : Bool :=
  !(decide (rect1.x > rect2.x + rect2.width) ||
    decide (rect1.x + rect1.width < rect2.x) ||
    decide (rect1.y > rect2.y + rect2.height) ||
    decide (rect1.y + rect1.height < rect2.y))

/-- QuadTree node. In the source the child array `nodes` is always either empty
or filled by split with exactly four children at indices 0 to 3; the two
constructors encode those two shapes of the array. -/
inductive QuadTree where
  | leaf (bounds : Bounds) (objects : List SpatialObject) (level : Nat)
  | node (bounds : Bounds) (objects : List SpatialObject) (level : Nat)
      (c0 c1 c2 c3 : QuadTree)
deriving DecidableEq, Repr

namespace QuadTree

/-- The bounds field of a node. -/
def bounds : QuadTree → Bounds
  | .leaf b _ _ => b
  | .node b _ _ _ _ _ _ => b

/-- The objects list of a node (objects stored at this node only). -/
def objects : QuadTree → List SpatialObject
  | .leaf _ o _ => o
  | .node _ o _ _ _ _ _ => o

/-- The level field of a node. -/
def level : QuadTree → Nat
  | .leaf _ _ l => l
  | .node _ _ l _ _ _ _ => l

/-- QuadTree constructor: fresh empty tree. -/
def new (x y width height : ℚ) (lvl : Nat := 0) : QuadTree :=
  .leaf ⟨x, y, width, height⟩ [] lvl

/-- QuadTree.getIndex. The source returns an index 0 to 3, or -1 when the
object straddles a quadrant midpoint; -1 is modelled as none. -/
def getIndex (b : Bounds) (obj : SpatialObject) : Option (Fin 4) :=
  let verticalMidpoint := b.x + b.width / 2
  let horizontalMidpoint := b.y + b.height / 2
  let topQuadrant := decide (obj.y < horizontalMidpoint) &&
    decide (obj.y + obj.height < horizontalMidpoint)
  let bottomQuadrant := decide (obj.y > horizontalMidpoint)
  if decide (obj.x < verticalMidpoint) &&
      decide (obj.x + obj.width < verticalMidpoint) then
    if topQuadrant then some 1
    else if bottomQuadrant then some 2
    else none
  else if decide (obj.x > verticalMidpoint) then
    if topQuadrant then some 0
    else if bottomQuadrant then some 3
    else none
  else none

/-- Bounds of the four children created by QuadTree.split: index 0 top-right,
1 top-left, 2 bottom-left, 3 bottom-right, each of half width and height. -/
def quadBounds (b : Bounds) : Fin 4 → Bounds
  | 0 => ⟨b.x + b.width / 2, b.y, b.width / 2, b.height / 2⟩
  | 1 => ⟨b.x, b.y, b.width / 2, b.height / 2⟩
  | 2 => ⟨b.x, b.y + b.height / 2, b.width / 2, b.height / 2⟩
  | 3 => ⟨b.x + b.width / 2, b.y + b.height / 2, b.width / 2, b.height / 2⟩

/-- The four children of a split node, as a tuple. -/
abbrev Quad := QuadTree × QuadTree × QuadTree × QuadTree

/-- Child access by split index. -/
def csGet (cs : Quad) : Fin 4 → QuadTree
  | 0 => cs.1
  | 1 => cs.2.1
  | 2 => cs.2.2.1
  | 3 => cs.2.2.2

/-- Child replacement by split index. -/
def csSet (cs : Quad) : Fin 4 → QuadTree → Quad
  | 0, c => (c, cs.2.1, cs.2.2.1, cs.2.2.2)
  | 1, c => (cs.1, c, cs.2.2.1, cs.2.2.2)
  | 2, c => (cs.1, cs.2.1, c, cs.2.2.2)
  | 3, c => (cs.1, cs.2.1, cs.2.2.1, c)

/-- Builds a node from a children tuple. -/
def mkNode (b : Bounds) (objs : List SpatialObject) (lvl : Nat) (cs : Quad) :
    QuadTree :=
  .node b objs lvl cs.1 cs.2.1 cs.2.2.1 cs.2.2.2

/-- QuadTree.split: four equal empty children at level + 1. -/
def splitCs (b : Bounds) (lvl : Nat) : Quad :=
  (.leaf (quadBounds b 0) [] (lvl + 1), .leaf (quadBounds b 1) [] (lvl + 1),
   .leaf (quadBounds b 2) [] (lvl + 1), .leaf (quadBounds b 3) [] (lvl + 1))

/-- QuadTree.moveObjectsToChildNodes with tryMoveObjectToChildNode inlined:
scan objs from position i; an object whose getIndex selects a child quadrant is
spliced out and inserted (via ins) into that child, keeping i; otherwise i
advances. The first argument n only bounds the number of loop iterations (so
that the recursion is structural): each iteration strictly decreases
objs.length - i, and every call supplies n = objs.length, which is therefore
never exhausted. -/
def moveLoop (ins : QuadTree → SpatialObject → QuadTree) (b : Bounds) :
    Nat → Nat → List SpatialObject → Quad → List SpatialObject × Quad
  | 0, _, objs, cs => (objs, cs)
  | n + 1, i, objs, cs =>
    if h : i < objs.length then
      let obj := objs[i]
      match getIndex b obj with
      | some k => moveLoop ins b n i (objs.eraseIdx i)
          (csSet cs k (ins (csGet cs k) obj))
      | none => moveLoop ins b n (i + 1) objs cs
    else (objs, cs)

/-- QuadTree.insert with tryInsertIntoChildNode and redistributeObjectsIfNeeded
inlined. The fuel argument only bounds the recursion depth: descending into a
child consumes one unit. Since split requires level < maxLevels, trees built
through the API never exceed depth maxLevels, and insert always supplies
fuel = maxLevels + 1, which is never exhausted on such trees. -/
def insertAux : Nat → QuadTree → SpatialObject → QuadTree
  | 0, .leaf b objs lvl, obj => .leaf b (objs ++ [obj]) lvl
  | 0, .node b objs lvl c0 c1 c2 c3, obj => .node b (objs ++ [obj]) lvl c0 c1 c2 c3
  | fuel + 1, .node b objs lvl c0 c1 c2 c3, obj =>
    match getIndex b obj with
    | some k =>
      mkNode b objs lvl
        (csSet (c0, c1, c2, c3) k (insertAux fuel (csGet (c0, c1, c2, c3) k) obj))
    | none =>
      let objs1 := objs ++ [obj]
      if objs1.length > maxObjects ∧ lvl < maxLevels then
        let moved := moveLoop (fun c o => insertAux fuel c o) b objs1.length 0 objs1
          (c0, c1, c2, c3)
        mkNode b moved.1 lvl moved.2
      else .node b objs1 lvl c0 c1 c2 c3
  | fuel + 1, .leaf b objs lvl, obj =>
    let objs1 := objs ++ [obj]
    if objs1.length > maxObjects ∧ lvl < maxLevels then
      let moved := moveLoop (fun c o => insertAux fuel c o) b objs1.length 0 objs1
        (splitCs b lvl)
      mkNode b moved.1 lvl moved.2
    else .leaf b objs1 lvl

/-- QuadTree.insert. -/
def insert (t : QuadTree) (obj : SpatialObject) : QuadTree :=
  insertAux (maxLevels + 1) t obj

/-- QuadTree.remove: match by identifier in this node first; otherwise recurse
into the quadrant selected by the geometry of obj, and the result of that
single recursion is final; the scan of all children (in index order) happens
only when getIndex selects no quadrant. Returns the new tree and whether an
object was removed. -/
def remove : QuadTree → SpatialObject → QuadTree × Bool
  | .leaf b objs lvl, obj =>
    match objs.findIdx? (fun o => o.id == obj.id) with
    | some i => (.leaf b (objs.eraseIdx i) lvl, true)
    | none => (.leaf b objs lvl, false)
  | .node b objs lvl c0 c1 c2 c3, obj =>
    match objs.findIdx? (fun o => o.id == obj.id) with
    | some i => (.node b (objs.eraseIdx i) lvl c0 c1 c2 c3, true)
    | none =>
      match getIndex b obj with
      | some 0 => let r := remove c0 obj; (.node b objs lvl r.1 c1 c2 c3, r.2)
      | some 1 => let r := remove c1 obj; (.node b objs lvl c0 r.1 c2 c3, r.2)
      | some 2 => let r := remove c2 obj; (.node b objs lvl c0 c1 r.1 c3, r.2)
      | some 3 => let r := remove c3 obj; (.node b objs lvl c0 c1 c2 r.1, r.2)
      | none =>
        let r0 := remove c0 obj
        if r0.2 then (.node b objs lvl r0.1 c1 c2 c3, true) else
        let r1 := remove c1 obj
        if r1.2 then (.node b objs lvl c0 r1.1 c2 c3, true) else
        let r2 := remove c2 obj
        if r2.2 then (.node b objs lvl c0 c1 r2.1 c3, true) else
        let r3 := remove c3 obj
        if r3.2 then (.node b objs lvl c0 c1 c2 r3.1, true) else
        (.node b objs lvl c0 c1 c2 c3, false)

/-- QuadTree.query: every object whose rectangle intersects the query area,
collected from this node and recursively from all children, pruning nodes whose
own bounds do not intersect the query area. -/
def query : QuadTree → Bounds → List SpatialObject
  | .leaf b objs _, qb =>
    if intersects b qb then objs.filter (fun o => intersects o.toBounds qb)
    else []
  | .node b objs _ c0 c1 c2 c3, qb =>
    if intersects b qb then
      objs.filter (fun o => intersects o.toBounds qb)
        ++ query c0 qb ++ query c1 qb ++ query c2 qb ++ query c3 qb
    else []

/-- QuadTree.queryPoint: query a 1 by 1 rectangle at the point, then filter to
exact inclusive point-in-rectangle containment. -/
def queryPoint (t : QuadTree) (x y : ℚ) : List SpatialObject :=
  (query t ⟨x, y, 1, 1⟩).filter (fun obj =>
    decide (x ≥ obj.x) && decide (x ≤ obj.x + obj.width) &&
    decide (y ≥ obj.y) && decide (y ≤ obj.y + obj.height))

/-- QuadTree.size: total number of stored objects. -/
def size : QuadTree → Nat
  | .leaf _ objs _ => objs.length
  | .node _ objs _ c0 c1 c2 c3 =>
    objs.length + size c0 + size c1 + size c2 + size c3

/-- QuadTree.clear: empties objects and discards all children. -/
def clear : QuadTree → QuadTree
  | .leaf b _ lvl => .leaf b [] lvl
  | .node b _ lvl _ _ _ _ => .leaf b [] lvl

/-- Specification helper (not in the source): the list of all stored objects,
node list first, then children 0 to 3. -/
def allObjects : QuadTree → List SpatialObject
  | .leaf _ objs _ => objs
  | .node _ objs _ c0 c1 c2 c3 =>
    objs ++ allObjects c0 ++ allObjects c1 ++ allObjects c2 ++ allObjects c3

end QuadTree

/-- A QuadTree API call. -/
inductive QOp where
  | ins (obj : SpatialObject)
  | rem (obj : SpatialObject)

/-- Replays a list of API calls, returning the final tree together with the
number of insert calls and the number of remove calls that returned true. -/
def runCount : QuadTree → List QOp → QuadTree × Nat × Nat
  | t, [] => (t, 0, 0)
  | t, .ins o :: ops =>
    let r := runCount (t.insert o) ops
    (r.1, r.2.1 + 1, r.2.2)
  | t, .rem o :: ops =>
    let r := runCount (t.remove o).1 ops
    (r.1, r.2.1, if (t.remove o).2 then r.2.2 + 1 else r.2.2)

/-- The tree produced by a list of API calls. -/
def runOps (t : QuadTree) (ops : List QOp) : QuadTree :=
  (runCount t ops).1




/-- Default.QUEUE_MAX_SIZE. -/
def maxQueueSize : Nat := 50

/-- Default.POOL_MAX_SIZE. -/
def maxPoolSize : Nat := 10

/-- Default.POOL_TIMEOUT in milliseconds. -/
def poolTimeout : ℚ := 30000

/-- Default.DIRTY_REGIONS_MAX. -/
def maxDirtyRegions : Nat := 20

/-- The slice of DrawConfig that the embedded code consults: geometry fields
and the presence of each event handler. The handler functions themselves are
external callbacks, so only their presence is modelled. -/
structure DrawConfig where
  x : ℚ := 0
  y : ℚ := 0
  width : Option ℚ := none
  height : Option ℚ := none
  radius : Option ℚ := none
  radiusX : Option ℚ := none
  radiusY : Option ℚ := none
  onClick : Bool := false
  onHover : Bool := false
  onTouch : Bool := false
  onTouchStart : Bool := false
  onTouchMove : Bool := false
  onTouchEnd : Bool := false
  onTap : Bool := false
  onDoubleTap : Bool := false
  onHold : Bool := false
deriving DecidableEq, Repr

/-- A queued draw command (interfaces/NeaSmart.ts DrawOperation). -/
structure DrawOperation where
  shape : String
  options : DrawConfig
  timestamp : Nat
  id : String
deriving DecidableEq, Repr

/-- A dirty rectangle (interfaces/NeaSmart.ts DirtyRegion). -/
structure DirtyRegion where
  x : ℚ
  y : ℚ
  width : ℚ
  height : ℚ
deriving DecidableEq, Repr

/-- The rectangle of a dirty region. -/
def DirtyRegion.toBounds (r : DirtyRegion) : Bounds := ⟨r.x, r.y, r.width, r.height⟩

/-- A pooled canvas entry; the canvas element is abstracted to a numeric
handle, lastUsed is a Date.now timestamp. -/
structure PooledCanvas where
  canvas : Nat
  width : ℚ
  height : ℚ
  lastUsed : ℚ
deriving DecidableEq, Repr

/-- Metrics counters (interfaces/NeaSmart.ts SmartMetrics). -/
structure SmartMetrics where
  operationsBatched : Nat := 0
  cacheHits : Nat := 0
  cacheMisses : Nat := 0
  poolHits : Nat := 0
  poolMisses : Nat := 0
  dirtyRegionRedraws : Nat := 0
deriving DecidableEq, Repr

/-- ToolRegistry (canvas/tools Registry.ts), abstracted to the set of
registered tool names; only the membership test has is consulted by queue. -/
structure ToolRegistry where
  tools : List String
deriving DecidableEq, Repr

/-- ToolRegistry.has. -/
def ToolRegistry.has (reg : ToolRegistry) (shape : String) : Bool :=
  reg.tools.contains shape

/-- The error thrown by queue for an unregistered shape
(ErrorCanvas.UNKNOWN_DRAWING_TOOL), carrying the names it reports. -/
inductive QueueError where
  | unknownTool (layoutName shape : String)
deriving DecidableEq, Repr

/-- The state of a NeaSmart instance (NeaRender.ts). The gradient and pattern
caches hold only external raster objects and no claim touches them, so they
are omitted. The tick counter stands for Date.now paired with the
Math.random suffix: the source uses them only to produce fresh identifiers
and timestamps, and this keeps the model deterministic. -/
structure NeaSmart where
  drawQueue : List DrawOperation := []
  canvasPool : List PooledCanvas := []
  dirtyRegions : List DirtyRegion := []
  spatialDirtyIndex : QuadTree := QuadTree.new 0 0 4096 4096
  metrics : SmartMetrics := {}
  tick : Nat := 0
deriving DecidableEq, Repr

namespace NeaSmart

/-- NeaSmart.flush: when a context is supplied the queued operations are
executed against it (drawing touches only the external raster context, not
this state), and the queue is cleared unconditionally; an empty queue returns
early. The ctx argument mirrors the optional parameter of the source. -/
def flush (s : NeaSmart) (ctx : Option Unit) : NeaSmart :=
  if s.drawQueue.isEmpty then s else { s with drawQueue := [] }

/-- NeaSmart.queue: validates the shape name against the tool registry and
throws UnknownTool before any state change; otherwise appends the operation,
bumps operationsBatched, and auto-flushes (without a context) once the queue
length reaches maxQueueSize. Returns the error or the operation id together
with the state after the call; on a throw the state is the unchanged input. -/
def queue (reg : ToolRegistry) (s : NeaSmart) (shape : String)
    (options : DrawConfig) (layoutName : String := "unknown") :
    Except QueueError String × NeaSmart :=
  if !(reg.has shape) then
    (.error (.unknownTool layoutName shape), s)
  else
    let operation : DrawOperation :=
      { shape := shape, options := options, timestamp := s.tick,
        id := shape ++ "_" ++ toString s.tick }
    let s1 := { s with
      drawQueue := s.drawQueue ++ [operation]
      tick := s.tick + 1
      metrics := { s.metrics with
        operationsBatched := s.metrics.operationsBatched + 1 } }
    if s1.drawQueue.length ≥ maxQueueSize then
      (.ok operation.id, s1.flush none)
    else
      (.ok operation.id, s1)

/-- NeaSmart.mergeRegions: bounding-box union. The source wraps this in
try/catch returning undefined on exception, but min and max on numbers cannot
throw, so the catch branch is dead and the function is total here. -/
def mergeRegions (region1 region2 : DirtyRegion) : DirtyRegion :=
  { x := min region1.x region2.x
    y := min region1.y region2.y
    width := max (region1.x + region1.width) (region2.x + region2.width)
      - min region1.x region2.x
    height := max (region1.y + region1.height) (region2.y + region2.height)
      - min region1.y region2.y }

/-- NeaSmart.regionsOverlap: inclusive overlap test. -/
def regionsOverlap (region1 region2 : DirtyRegion) : Bool :=
  !(decide (region1.x + region1.width < region2.x) ||
    decide (region2.x + region2.width < region1.x) ||
    decide (region1.y + region1.height < region2.y) ||
    decide (region2.y + region2.height < region1.y))

/-- NeaSmart.evaluateMergeCandidate: locates the rectangle of spatialObj in
the flat region list by exact geometry, requires overlap with the new region,
and returns the existing region, its index, and the merged area. -/
def evaluateMergeCandidate (dirtyRegions : List DirtyRegion)
    (spatialObj : SpatialObject) (newRegion : DirtyRegion) :
    Option (DirtyRegion × Nat × ℚ) :=
  match dirtyRegions.findIdx? (fun r =>
      r.x == spatialObj.x && r.y == spatialObj.y &&
      r.width == spatialObj.width && r.height == spatialObj.height) with
  | none => none
  | some regionIndex =>
    match dirtyRegions.get? regionIndex with
    | none => none
    | some existingRegion =>
      if regionsOverlap existingRegion newRegion then
        let merged := mergeRegions existingRegion newRegion
        some (existingRegion, regionIndex, merged.width * merged.height)
      else none

/-- The candidate record of findBestMergeCandidate, extended with the merged
area the source tracks separately as smallestMergedArea. -/
structure MergeCand where
  region : DirtyRegion
  index : Nat
  spatialId : String
  area : ℚ
deriving DecidableEq, Repr

/-- One iteration of the findBestMergeCandidate loop: a candidate replaces
the best seen so far exactly when its merged area is strictly smaller (none
plays the role of the initial Infinity, so the first candidate always
replaces it). -/
def findBestStep (dirtyRegions : List DirtyRegion) (newRegion : DirtyRegion)
    (best : Option MergeCand) (spatialObj : SpatialObject) : Option MergeCand :=
  match evaluateMergeCandidate dirtyRegions spatialObj newRegion with
  | some (region, index, area) =>
    match best with
    | none => some ⟨region, index, spatialObj.id, area⟩
    | some b =>
      if area < b.area then some ⟨region, index, spatialObj.id, area⟩ else best
  | none => best

/-- NeaSmart.findBestMergeCandidate: folds over the overlapping spatial
entries keeping the candidate with the strictly smallest merged area (the
first candidate wins ties). -/
def findBestMergeCandidate (dirtyRegions : List DirtyRegion)
    (newRegion : DirtyRegion) (overlapping : List SpatialObject) :
    Option MergeCand :=
  overlapping.foldl (findBestStep dirtyRegions newRegion) none

/-- NeaSmart.performSpatialMerge: removes the candidate entry from the spatial
index, overwrites the flat-list slot with the merged region, and inserts the
merged rectangle under the new region id. -/
def performSpatialMerge (s : NeaSmart) (candidate : MergeCand)
    (newRegion : DirtyRegion) (regionId : String) : NeaSmart :=
  let merged := mergeRegions candidate.region newRegion
  let spatial1 := (s.spatialDirtyIndex.remove
    ⟨candidate.spatialId, candidate.region.x, candidate.region.y,
      candidate.region.width, candidate.region.height⟩).1
  { s with
    dirtyRegions := s.dirtyRegions.set candidate.index merged
    spatialDirtyIndex := spatial1.insert
      ⟨regionId, merged.x, merged.y, merged.width, merged.height⟩ }

/-- NeaSmart.cleanupOldestDirtyRegion: shifts the oldest region off the list,
then removes the first spatial entry with exactly its geometry among the
spatial query results at its rectangle, when the query finds one. -/
def cleanupOldestDirtyRegion (s : NeaSmart) : NeaSmart :=
  match s.dirtyRegions with
  | [] => s
  | oldestRegion :: rest =>
    let candidates := s.spatialDirtyIndex.query oldestRegion.toBounds
    match candidates.find? (fun c =>
        c.x == oldestRegion.x && c.y == oldestRegion.y &&
        c.width == oldestRegion.width && c.height == oldestRegion.height) with
    | some candidate =>
      { s with
        dirtyRegions := rest
        spatialDirtyIndex := (s.spatialDirtyIndex.remove candidate).1 }
    | none => { s with dirtyRegions := rest }

/-- NeaSmart.markDirty. -/
def markDirty (s : NeaSmart) (x y width height : ℚ) : NeaSmart :=
  let region : DirtyRegion := ⟨x, y, width, height⟩
  let regionId := "dirty_" ++ toString s.tick
  let s0 := { s with tick := s.tick + 1 }
  let overlapping := s.spatialDirtyIndex.query ⟨x, y, width, height⟩
  match (if overlapping.length > 0 then
      findBestMergeCandidate s.dirtyRegions region overlapping
    else none) with
  | some candidate => performSpatialMerge s0 candidate region regionId
  | none =>
    let s1 := { s0 with
      dirtyRegions := s0.dirtyRegions ++ [region]
      spatialDirtyIndex :=
        s0.spatialDirtyIndex.insert ⟨regionId, x, y, width, height⟩ }
    if s1.dirtyRegions.length > maxDirtyRegions then
      cleanupOldestDirtyRegion s1
    else s1

/-- NeaSmart.getDirtyRegions (the source returns a copy of the array). -/
def getDirtyRegions (s : NeaSmart) : List DirtyRegion := s.dirtyRegions

/-- NeaSmart.clearDirtyRegions. -/
def clearDirtyRegions (s : NeaSmart) : NeaSmart :=
  { s with
    dirtyRegions := []
    spatialDirtyIndex := s.spatialDirtyIndex.clear
    metrics := { s.metrics with
      dirtyRegionRedraws := s.metrics.dirtyRegionRedraws + 1 } }

/-- NeaSmart.returnCanvas: evicts the entry at index 0 when the pool has
reached maxPoolSize, then appends the returned canvas. Erasing the canvas
content touches only the external canvas element. now stands for Date.now. -/
def returnCanvas (s : NeaSmart) (canvas : Nat) (width height : ℚ)
    (now : ℚ) : NeaSmart :=
  let pool0 := if s.canvasPool.length ≥ maxPoolSize then s.canvasPool.drop 1
    else s.canvasPool
  { s with canvasPool := pool0 ++ [⟨canvas, width, height, now⟩] }

/-- NeaSmart.getCanvas: a pool hit splices the matching entry out, bumps
poolHits and returns its canvas; a miss bumps poolMisses, leaves the pool
untouched, and creates a canvas through the external host (none here, since
surface creation is outside the model). -/
def getCanvas (s : NeaSmart) (width height : ℚ) : NeaSmart × Option Nat :=
  match s.canvasPool.findIdx? (fun item =>
      item.width == width && item.height == height) with
  | some poolIndex =>
    ({ s with
        canvasPool := s.canvasPool.eraseIdx poolIndex
        metrics := { s.metrics with poolHits := s.metrics.poolHits + 1 } },
      (s.canvasPool.get? poolIndex).map (fun pooled => pooled.canvas))
  | none =>
    ({ s with metrics := { s.metrics with
        poolMisses := s.metrics.poolMisses + 1 } }, none)

/-- NeaSmart.cleanup: drops pooled canvases whose lastUsed exceeds
poolTimeout; the cache trimming in the source touches only the external
gradient and pattern caches. -/
def cleanup (s : NeaSmart) (now : ℚ) : NeaSmart :=
  { s with canvasPool := s.canvasPool.filter (fun item =>
      decide (now - item.lastUsed < poolTimeout)) }

/-- Specification helper mirroring the branch structure of markDirty: the
region this call evicts, when the cap is exceeded. -/
def evictedBy (s : NeaSmart) (x y width height : ℚ) : Option DirtyRegion :=
  let region : DirtyRegion := ⟨x, y, width, height⟩
  let overlapping := s.spatialDirtyIndex.query ⟨x, y, width, height⟩
  match (if overlapping.length > 0 then
      findBestMergeCandidate s.dirtyRegions region overlapping
    else none) with
  | some _ => none
  | none =>
    if (s.dirtyRegions ++ [region]).length > maxDirtyRegions then
      (s.dirtyRegions ++ [region]).head?
    else none

/-- Replays markDirty over a list of rectangles. -/
def runMarks : NeaSmart → List DirtyRegion → NeaSmart
  | s, [] => s
  | s, r :: rs => runMarks (s.markDirty r.x r.y r.width r.height) rs

/-- Specification helper: every region evicted across a replay, in order. -/
def evictedDuring : NeaSmart → List DirtyRegion → List DirtyRegion
  | _, [] => []
  | s, r :: rs =>
    (s.evictedBy r.x r.y r.width r.height).toList
      ++ evictedDuring (s.markDirty r.x r.y r.width r.height) rs

end NeaSmart

/-- Inclusive membership of a point in a dirty region. -/
def inRegion (px py : ℚ) (r : DirtyRegion) : Prop :=
  r.x ≤ px ∧ px ≤ r.x + r.width ∧ r.y ≤ py ∧ py ≤ r.y + r.height

instance (px py : ℚ) (r : DirtyRegion) : Decidable (inRegion px py r) := by
  unfold inRegion; infer_instance


/-- Layout configuration for coordinate mapping; x and y are optional as in
the source's setLayoutConfig signature. -/
structure LayoutConfig where
  x : Option ℚ := none
  y : Option ℚ := none
  width : ℚ
  height : ℚ
deriving DecidableEq, Repr

/-- A registered interactive shape (interfaces InteractiveShape). -/
structure InteractiveShape where
  shapeId : String
  options : DrawConfig
  layoutName : String
  bounds : Bounds
  layoutConfig : LayoutConfig
deriving DecidableEq, Repr

/-- JavaScript Map modelled as an insertion-ordered association list; mapSet
replaces in place when the key exists and appends otherwise. -/
def mapSet {α : Type} (m : List (String × α)) (k : String) (v : α) :
    List (String × α) :=
  if m.any (fun p => p.1 == k) then
    m.map (fun p => if p.1 == k then (k, v) else p)
  else m ++ [(k, v)]

/-- The state of a NeaInteractive instance (NeaInteractive.ts); only the
fields involved in registering and hit-testing shapes are modelled — the
remaining fields drive external DOM event listeners and timers. -/
structure NeaInteractive where
  registeredShapes : List (String × InteractiveShape) := []
  layoutConfigs : List (String × LayoutConfig) := []
  spatialIndex : QuadTree := QuadTree.new 0 0 4096 4096
deriving DecidableEq, Repr

namespace NeaInteractive

/-- NeaInteractive.hasTouchHandlers. -/
def hasTouchHandlers (options : DrawConfig) : Bool :=
  options.onTouch || options.onTouchStart || options.onTouchMove ||
  options.onTouchEnd || options.onTap || options.onDoubleTap || options.onHold

/-- NeaInteractive.calculateShapeBounds, the version in
src/framework/NeaInteractive.ts: explicit width and height when given,
overridden by radius, overridden in turn by radiusX paired with radiusY, with
100 by 100 as the default; the position is taken directly from x and y. -/
def calculateShapeBounds (options : DrawConfig) : Bounds :=
  let w1 := match options.width with
    | some w => w
    | none => 100
  let h1 := match options.height with
    | some h => h
    | none => 100
  let wh2 := match options.radius with
    | some r => (r * 2, r * 2)
    | none => (w1, h1)
  let wh3 := match options.radiusX, options.radiusY with
    | some rx, some ry => (rx * 2, ry * 2)
    | _, _ => wh2
  ⟨options.x, options.y, wh3.1, wh3.2⟩

/-- NeaInteractive.setLayoutConfig. -/
def setLayoutConfig (s : NeaInteractive) (layoutName : String)
    (config : LayoutConfig) : NeaInteractive :=
  { s with layoutConfigs := mapSet s.layoutConfigs layoutName config }

/-- NeaInteractive.set: a shape is registered only when its options carry at
least one event handler; re-registration removes the prior spatial entry for
the same shapeId before inserting the new one. -/
def set (s : NeaInteractive) (shapeId : String) (options : DrawConfig)
    (layoutName : String) : NeaInteractive :=
  if options.onClick || options.onHover || hasTouchHandlers options then
    let layoutConfig := (s.layoutConfigs.lookup layoutName).getD
      { x := some 0, y := some 0, width := 0, height := 0 }
    let bounds := calculateShapeBounds options
    let spatial1 := match s.registeredShapes.lookup shapeId with
      | some existingShape =>
        (s.spatialIndex.remove ⟨shapeId, existingShape.bounds.x,
          existingShape.bounds.y, existingShape.bounds.width,
          existingShape.bounds.height⟩).1
      | none => s.spatialIndex
    { s with
      registeredShapes := mapSet s.registeredShapes shapeId
        ⟨shapeId, options, layoutName, bounds, layoutConfig⟩
      spatialIndex := spatial1.insert
        ⟨shapeId, bounds.x, bounds.y, bounds.width, bounds.height⟩ }
  else s

end NeaInteractive

/-- Inclusive rectangle containment: inner lies inside outer. -/
def boundsLe (inner outer : Bounds) : Prop :=
  outer.x ≤ inner.x ∧ inner.x + inner.width ≤ outer.x + outer.width ∧
  outer.y ≤ inner.y ∧ inner.y + inner.height ≤ outer.y + outer.height

instance (inner outer : Bounds) : Decidable (boundsLe inner outer) := by
  unfold boundsLe; infer_instance

/-- Inclusive membership of a point in a rectangle. -/
def pointInB (b : Bounds) (x y : ℚ) : Prop :=
  b.x ≤ x ∧ x ≤ b.x + b.width ∧ b.y ≤ y ∧ y ≤ b.y + b.height

instance (b : Bounds) (x y : ℚ) : Decidable (pointInB b x y) := by
  unfold pointInB; infer_instance

namespace QuadTree

/-- Specification helper: the multiset of objects stored in a children tuple. -/
def quadAll (cs : Quad) : Multiset SpatialObject :=
  (allObjects cs.1 : Multiset SpatialObject) + (allObjects cs.2.1 : Multiset _)
    + (allObjects cs.2.2.1 : Multiset _) + (allObjects cs.2.2.2 : Multiset _)

/-- Structural invariant of every tree built through the API from QuadTree.new
with outer bounds B: node dimensions are nonnegative, the children of a split
node lie exactly on the four split quadrants, and every object stored at a node
that lies inside B (inclusively) also lies inside that node's bounds. -/
def Inv (B : Bounds) : QuadTree → Prop
  | .leaf b objs _ => 0 ≤ b.width ∧ 0 ≤ b.height ∧
      ∀ o ∈ objs, boundsLe o.toBounds B → boundsLe o.toBounds b
  | .node b objs _ c0 c1 c2 c3 =>
      (0 ≤ b.width ∧ 0 ≤ b.height ∧
        ∀ o ∈ objs, boundsLe o.toBounds B → boundsLe o.toBounds b) ∧
      (c0.bounds = quadBounds b 0 ∧ c1.bounds = quadBounds b 1 ∧
        c2.bounds = quadBounds b 2 ∧ c3.bounds = quadBounds b 3) ∧
      (Inv B c0 ∧ Inv B c1 ∧ Inv B c2 ∧ Inv B c3)

end QuadTree

namespace NeaSmart

/-- Specification helper: replays queue over a list of shape names (with
empty draw options), returning none as soon as a call throws, and counting
the auto-flushes that fired (the condition mirrors the flush branch of
queue). -/
def queueRun (reg : ToolRegistry) : NeaSmart → List String → Option (NeaSmart × Nat)
  | s, [] => some (s, 0)
  | s, shape :: rest =>
    let r := queue reg s shape {}
    match r.1 with
    | .error _ => none
    | .ok _ =>
      match queueRun reg r.2 rest with
      | none => none
      | some (sf, n) =>
        some (sf, (if s.drawQueue.length + 1 ≥ maxQueueSize then 1 else 0) + n)

end NeaSmart

/-- The tree used by the C5 theorems: eleven objects with distinct ids, all
in the top-left quadrant of a 0,0,64,64 root, so the root splits and every
object ends up under child 1 or deeper. -/
def c5Tree : QuadTree :=
  ((List.range 11).map (fun i =>
    (⟨"a" ++ toString i, 1, 1, 2, 2⟩ : SpatialObject))).foldl QuadTree.insert
    (QuadTree.new 0 0 64 64)

/-- Options used by the C9 theorems: an onClick handler with explicit size. -/
def c9Options : DrawConfig :=
  { x := 1, y := 2, width := some 10, height := some 20, onClick := true }

/-- The interactive state of the C9 counterexample: layout L sits at
position (50,60) and shape s is registered in it. -/
def c9State : NeaInteractive :=
  NeaInteractive.set
    (NeaInteractive.setLayoutConfig {} "L"
      { x := some 50, y := some 60, width := 200, height := 200 })
    "s" c9Options "L"

/-- The state of the C3 counterexample: two identical markDirty calls on a
rectangle lying outside the 4096 by 4096 root bounds of the dirty index. -/
def c3State : NeaSmart :=
  NeaSmart.markDirty (NeaSmart.markDirty {} 5000 5000 10 10) 5000 5000 10 10

/-- The marks of the C4 counterexample: twenty-one pairwise disjoint
rectangles outside the index root bounds, enough to trigger one eviction. -/
def c4Marks : List DirtyRegion :=
  (List.range 21).map (fun i => ⟨5000 + 20 * (i : ℚ), 5000, 10, 10⟩)

/-- The state of the C4 counterexample after the twenty-one calls. -/
def c4State : NeaSmart := NeaSmart.runMarks {} c4Marks


namespace QuadTree

theorem perm_getElem_cons_eraseIdx {α : Type} (l : List α) (i : Nat)
    (h : i < l.length) : l.Perm (l[i] :: l.eraseIdx i) := by
  conv_lhs => rw [← List.take_append_drop i l, ← List.getElem_cons_drop l i h]
  rw [List.eraseIdx_eq_take_drop_succ]
  exact List.perm_middle

theorem allObjects_mkNode (b : Bounds) (objs : List SpatialObject) (lvl : Nat)
    (cs : Quad) :
    (allObjects (mkNode b objs lvl cs) : Multiset SpatialObject)
      = ↑objs + quadAll cs := by
  simp only [mkNode, allObjects, quadAll, ← Multiset.coe_add]
  abel

theorem coe_eraseIdx (l : List SpatialObject) (i : Nat) (h : i < l.length) :
    (l : Multiset SpatialObject) = l[i] ::ₘ ↑(l.eraseIdx i) := by
  rw [Multiset.cons_coe, Multiset.coe_eq_coe]
  exact perm_getElem_cons_eraseIdx l i h

theorem moveLoop_multiset (ins : QuadTree → SpatialObject → QuadTree)
    (hins : ∀ c o, (allObjects (ins c o) : Multiset SpatialObject)
      = o ::ₘ ↑(allObjects c)) (b : Bounds) (n : Nat) :
    ∀ (i : Nat) (objs : List SpatialObject) (cs : Quad),
      ((moveLoop ins b n i objs cs).1 : Multiset SpatialObject)
          + quadAll (moveLoop ins b n i objs cs).2
        = ↑objs + quadAll cs := by
  induction n with
  | zero => intro i objs cs; rfl
  | succ n ih =>
    intro i objs cs
    rw [moveLoop]
    by_cases h : i < objs.length
    · simp only [dif_pos h]
      cases hk : getIndex b objs[i] with
      | some k =>
        simp only [ih]
        rw [coe_eraseIdx objs i h]
        fin_cases k <;>
          simp only [quadAll, csSet, csGet, hins, ← Multiset.singleton_add] <;>
          abel
      | none => simp only [ih]
    · simp only [dif_neg h]

theorem insertAux_multiset (fuel : Nat) :
    ∀ (t : QuadTree) (obj : SpatialObject),
      (allObjects (insertAux fuel t obj) : Multiset SpatialObject)
        = obj ::ₘ ↑(allObjects t) := by
  induction fuel with
  | zero =>
    intro t obj
    cases t <;>
      simp only [insertAux, allObjects, ← Multiset.coe_add, Multiset.coe_singleton,
        ← Multiset.singleton_add] <;>
      abel
  | succ fuel ih =>
    intro t obj
    cases t with
    | leaf b objs lvl =>
      rw [insertAux]
      dsimp only
      split
      · rw [allObjects_mkNode,
          moveLoop_multiset (fun c o => insertAux fuel c o) ih b]
        simp only [allObjects, quadAll, splitCs, Multiset.coe_nil, ← Multiset.coe_add,
          Multiset.coe_singleton, ← Multiset.singleton_add]
        abel
      · simp only [allObjects, ← Multiset.coe_add, Multiset.coe_singleton,
          ← Multiset.singleton_add]
        abel
    | node b objs lvl c0 c1 c2 c3 =>
      rw [insertAux]
      cases hk : getIndex b obj with
      | some k =>
        rw [allObjects_mkNode]
        fin_cases k <;>
          simp only [allObjects, quadAll, csSet, csGet, ih, ← Multiset.coe_add,
            Multiset.coe_singleton, ← Multiset.singleton_add] <;>
          abel
      | none =>
        dsimp only
        split
        · rw [allObjects_mkNode,
            moveLoop_multiset (fun c o => insertAux fuel c o) ih b]
          simp only [allObjects, quadAll, ← Multiset.coe_add, Multiset.coe_singleton,
            ← Multiset.singleton_add]
          abel
        · simp only [allObjects, quadAll, ← Multiset.coe_add, Multiset.coe_singleton,
            ← Multiset.singleton_add]
          abel

theorem insert_multiset (t : QuadTree) (obj : SpatialObject) :
    (allObjects (t.insert obj) : Multiset SpatialObject)
      = obj ::ₘ ↑(allObjects t) :=
  insertAux_multiset (maxLevels + 1) t obj

theorem size_eq_length_allObjects : ∀ t : QuadTree, size t = (allObjects t).length := by
  intro t
  induction t with
  | leaf b objs lvl => rfl
  | node b objs lvl c0 c1 c2 c3 ih0 ih1 ih2 ih3 =>
    simp [size, allObjects, ih0, ih1, ih2, ih3]
    omega

theorem size_insert (t : QuadTree) (obj : SpatialObject) :
    size (t.insert obj) = size t + 1 := by
  have h := congrArg Multiset.card (insert_multiset t obj)
  simpa [size_eq_length_allObjects] using h

theorem remove_not_found : ∀ (t : QuadTree) (obj : SpatialObject),
    (remove t obj).2 = false → (remove t obj).1 = t := by
  intro t obj
  induction t with
  | leaf b objs lvl =>
    rw [remove]
    cases hf : objs.findIdx? (fun o => o.id == obj.id) <;> simp
  | node b objs lvl c0 c1 c2 c3 ih0 ih1 ih2 ih3 =>
    rw [remove]
    cases hf : objs.findIdx? (fun o => o.id == obj.id) with
    | some i => simp
    | none =>
      cases hk : getIndex b obj with
      | some k =>
        fin_cases k <;> dsimp only <;> intro hfound
        · rw [ih0 hfound]
        · rw [ih1 hfound]
        · rw [ih2 hfound]
        · rw [ih3 hfound]
      | none =>
        dsimp only
        by_cases h0 : (remove c0 obj).2 <;> simp only [h0, if_true, if_false]
        · simp
        by_cases h1 : (remove c1 obj).2 <;> simp only [h1, if_true, if_false]
        · simp
        by_cases h2 : (remove c2 obj).2 <;> simp only [h2, if_true, if_false]
        · simp
        by_cases h3 : (remove c3 obj).2 <;> simp only [h3, if_true, if_false]
        · simp
        · simp

theorem remove_found_size : ∀ (t : QuadTree) (obj : SpatialObject),
    (remove t obj).2 = true → size (remove t obj).1 + 1 = size t := by
  intro t obj
  induction t with
  | leaf b objs lvl =>
    rw [remove]
    cases hf : objs.findIdx? (fun o => o.id == obj.id) with
    | some i =>
      obtain ⟨hi, -, -⟩ := List.findIdx?_eq_some_iff_getElem.mp hf
      intro _
      simp [size, List.length_eraseIdx, hi]
      omega
    | none => simp
  | node b objs lvl c0 c1 c2 c3 ih0 ih1 ih2 ih3 =>
    rw [remove]
    cases hf : objs.findIdx? (fun o => o.id == obj.id) with
    | some i =>
      obtain ⟨hi, -, -⟩ := List.findIdx?_eq_some_iff_getElem.mp hf
      intro _
      simp [size, List.length_eraseIdx, hi]
      omega
    | none =>
      cases hk : getIndex b obj with
      | some k =>
        fin_cases k <;> dsimp only <;> intro hfound <;> simp only [size]
        · have := ih0 hfound; omega
        · have := ih1 hfound; omega
        · have := ih2 hfound; omega
        · have := ih3 hfound; omega
      | none =>
        dsimp only
        by_cases h0 : (remove c0 obj).2 <;> simp only [h0, if_true, if_false]
        · intro _; simp only [size]; have := ih0 h0; omega
        by_cases h1 : (remove c1 obj).2 <;> simp only [h1, if_true, if_false]
        · intro _; simp only [size]; have := ih1 h1; omega
        by_cases h2 : (remove c2 obj).2 <;> simp only [h2, if_true, if_false]
        · intro _; simp only [size]; have := ih2 h2; omega
        by_cases h3 : (remove c3 obj).2 <;> simp only [h3, if_true, if_false]
        · intro _; simp only [size]; have := ih3 h3; omega
        · simp

theorem size_runCount : ∀ (ops : List QOp) (t : QuadTree),
    size (runCount t ops).1 + (runCount t ops).2.2
      = (runCount t ops).2.1 + size t := by
  intro ops
  induction ops with
  | nil => intro t; simp [runCount]
  | cons op rest ih =>
    intro t
    cases op with
    | ins o =>
      simp only [runCount]
      have h1 := ih (t.insert o)
      have h2 := size_insert t o
      omega
    | rem o =>
      simp only [runCount]
      by_cases hfound : (t.remove o).2
      · have h1 := ih (t.remove o).1
        have h2 := remove_found_size t o hfound
        simp only [hfound, if_true]
        omega
      · have h2 : (t.remove o).1 = t := remove_not_found t o (by simpa using hfound)
        have h3 : (t.remove o).2 = false := by simpa using hfound
        simp only [h3, Bool.false_eq_true, if_false, h2]
        exact ih t

end QuadTree

theorem boundsLe_refl (b : Bounds) : boundsLe b b := by
  unfold boundsLe; exact ⟨le_refl _, le_refl _, le_refl _, le_refl _⟩

theorem boundsLe_trans {a b c : Bounds} (h1 : boundsLe a b) (h2 : boundsLe b c) :
    boundsLe a c := by
  obtain ⟨p1, p2, p3, p4⟩ := h1
  obtain ⟨q1, q2, q3, q4⟩ := h2
  exact ⟨le_trans q1 p1, le_trans p2 q2, le_trans q3 p3, le_trans p4 q4⟩

theorem pointInB_mono {inner outer : Bounds} {x y : ℚ}
    (hle : boundsLe inner outer) (h : pointInB inner x y) : pointInB outer x y := by
  obtain ⟨p1, p2, p3, p4⟩ := hle
  obtain ⟨q1, q2, q3, q4⟩ := h
  exact ⟨le_trans p1 q1, le_trans q2 p2, le_trans p3 q3, le_trans q4 p4⟩

theorem intersects_iff (r1 r2 : Bounds) :
    intersects r1 r2 = true ↔
      r1.x ≤ r2.x + r2.width ∧ r2.x ≤ r1.x + r1.width ∧
      r1.y ≤ r2.y + r2.height ∧ r2.y ≤ r1.y + r1.height := by
  simp [intersects, not_lt, and_assoc]

theorem intersects_of_boundsLe {inner outer : Bounds} (h : boundsLe inner outer)
    (hw : 0 ≤ inner.width) (hh : 0 ≤ inner.height) :
    intersects inner outer = true := by
  rw [intersects_iff]
  obtain ⟨p1, p2, p3, p4⟩ := h
  refine ⟨?_, ?_, ?_, ?_⟩ <;> linarith

theorem intersects_of_pointInB {b1 b2 : Bounds} {x y : ℚ}
    (h1 : pointInB b1 x y) (h2 : pointInB b2 x y) : intersects b1 b2 = true := by
  rw [intersects_iff]
  obtain ⟨p1, p2, p3, p4⟩ := h1
  obtain ⟨q1, q2, q3, q4⟩ := h2
  refine ⟨?_, ?_, ?_, ?_⟩ <;> linarith

namespace QuadTree

theorem csGet_csSet_self (cs : Quad) (c : QuadTree) (k : Fin 4) :
    csGet (csSet cs k c) k = c := by
  fin_cases k <;> rfl

theorem csGet_csSet_ne (cs : Quad) (c : QuadTree) {k j : Fin 4} (h : j ≠ k) :
    csGet (csSet cs k c) j = csGet cs j := by
  fin_cases k <;> fin_cases j <;> simp_all [csGet, csSet]

theorem quadBounds_le {b : Bounds} (hw : 0 ≤ b.width) (hh : 0 ≤ b.height)
    (k : Fin 4) : boundsLe (quadBounds b k) b := by
  fin_cases k <;>
    simp only [quadBounds, boundsLe] <;>
    refine ⟨?_, ?_, ?_, ?_⟩ <;> dsimp only <;> linarith

theorem quadBounds_dims {b : Bounds} (hw : 0 ≤ b.width) (hh : 0 ≤ b.height)
    (k : Fin 4) : 0 ≤ (quadBounds b k).width ∧ 0 ≤ (quadBounds b k).height := by
  fin_cases k <;> constructor <;> dsimp only [quadBounds] <;> linarith

theorem getIndex_some_le {b : Bounds} {obj : SpatialObject} {k : Fin 4}
    (hk : getIndex b obj = some k) (hin : boundsLe obj.toBounds b) :
    boundsLe obj.toBounds (quadBounds b k) := by
  obtain ⟨p1, p2, p3, p4⟩ := hin
  simp only [SpatialObject.toBounds] at p1 p2 p3 p4
  simp only [getIndex] at hk
  split_ifs at hk with h1 h2 h3 h4 h5 h6 <;>
    simp only [Bool.and_eq_true, decide_eq_true_eq, Option.some.injEq,
      reduceCtorEq] at *
  · obtain ⟨h1a, h1b⟩ := h1
    obtain ⟨h2a, h2b⟩ := h2
    subst hk
    simp only [quadBounds, boundsLe, SpatialObject.toBounds]
    refine ⟨?_, ?_, ?_, ?_⟩ <;> linarith
  · obtain ⟨h1a, h1b⟩ := h1
    subst hk
    simp only [quadBounds, boundsLe, SpatialObject.toBounds]
    refine ⟨?_, ?_, ?_, ?_⟩ <;> linarith
  · obtain ⟨h5a, h5b⟩ := h5
    subst hk
    simp only [quadBounds, boundsLe, SpatialObject.toBounds]
    refine ⟨?_, ?_, ?_, ?_⟩ <;> linarith
  · subst hk
    simp only [quadBounds, boundsLe, SpatialObject.toBounds]
    refine ⟨?_, ?_, ?_, ?_⟩ <;> linarith

theorem insertAux_bounds : ∀ (fuel : Nat) (t : QuadTree) (obj : SpatialObject),
    (insertAux fuel t obj).bounds = t.bounds := by
  intro fuel t obj
  cases fuel with
  | zero => cases t <;> rfl
  | succ fuel =>
    cases t with
    | leaf b objs lvl =>
      rw [insertAux]
      dsimp only
      split <;> rfl
    | node b objs lvl c0 c1 c2 c3 =>
      rw [insertAux]
      cases getIndex b obj with
      | some k => rfl
      | none => dsimp only; split <;> rfl

theorem remove_bounds : ∀ (t : QuadTree) (obj : SpatialObject),
    (remove t obj).1.bounds = t.bounds := by
  intro t obj
  cases t with
  | leaf b objs lvl =>
    rw [remove]
    cases objs.findIdx? (fun o => o.id == obj.id) <;> rfl
  | node b objs lvl c0 c1 c2 c3 =>
    rw [remove]
    cases objs.findIdx? (fun o => o.id == obj.id) with
    | some i => rfl
    | none =>
      cases hk : getIndex b obj with
      | some k => fin_cases k <;> rfl
      | none =>
        dsimp only
        by_cases h0 : (remove c0 obj).2 <;> simp only [h0, if_true, if_false]
        · rfl
        by_cases h1 : (remove c1 obj).2 <;> simp only [h1, if_true, if_false]
        · rfl
        by_cases h2 : (remove c2 obj).2 <;> simp only [h2, if_true, if_false]
        · rfl
        by_cases h3 : (remove c3 obj).2 <;> simp only [h3, if_true, if_false] <;> rfl


theorem moveLoop_Inv (B b : Bounds) (ins : QuadTree → SpatialObject → QuadTree)
    (hbnd : ∀ c o, (ins c o).bounds = c.bounds)
    (hins : ∀ c o, Inv B c → (boundsLe o.toBounds B → boundsLe o.toBounds c.bounds) →
      Inv B (ins c o)) (n : Nat) :
    ∀ (i : Nat) (objs : List SpatialObject) (cs : Quad),
      (∀ o ∈ objs, boundsLe o.toBounds B → boundsLe o.toBounds b) →
      (∀ k, (csGet cs k).bounds = quadBounds b k) →
      (∀ k, Inv B (csGet cs k)) →
      ((∀ o ∈ (moveLoop ins b n i objs cs).1,
          boundsLe o.toBounds B → boundsLe o.toBounds b) ∧
        (∀ k, (csGet (moveLoop ins b n i objs cs).2 k).bounds = quadBounds b k) ∧
        (∀ k, Inv B (csGet (moveLoop ins b n i objs cs).2 k))) := by
  induction n with
  | zero => intro i objs cs hobjs hq hInv; exact ⟨hobjs, hq, hInv⟩
  | succ n ih =>
    intro i objs cs hobjs hq hInv
    rw [moveLoop]
    by_cases h : i < objs.length
    · simp only [dif_pos h]
      cases hk : getIndex b objs[i] with
      | some k =>
        apply ih
        · intro o ho hB
          exact hobjs o ((perm_getElem_cons_eraseIdx objs i h).mem_iff.2
            (List.mem_cons_of_mem _ ho)) hB
        · intro j
          by_cases hj : j = k
          · subst hj
            rw [csGet_csSet_self, hbnd]
            exact hq j
          · rw [csGet_csSet_ne _ _ hj]
            exact hq j
        · intro j
          by_cases hj : j = k
          · subst hj
            rw [csGet_csSet_self]
            refine hins _ _ (hInv j) ?_
            intro hB
            rw [hq j]
            exact getIndex_some_le hk (hobjs _ (objs.getElem_mem h) hB)
          · rw [csGet_csSet_ne _ _ hj]
            exact hInv j
      | none => exact ih _ _ _ hobjs hq hInv
    · simp only [dif_neg h]
      exact ⟨hobjs, hq, hInv⟩

theorem insertAux_Inv (B : Bounds) :
    ∀ (fuel : Nat) (t : QuadTree) (obj : SpatialObject),
      Inv B t → (boundsLe obj.toBounds B → boundsLe obj.toBounds t.bounds) →
      Inv B (insertAux fuel t obj) := by
  intro fuel
  induction fuel with
  | zero =>
    intro t obj hInv hle
    cases t with
    | leaf b objs lvl =>
      obtain ⟨hw, hh, hobjs⟩ := hInv
      refine ⟨hw, hh, ?_⟩
      intro o ho hB
      rcases List.mem_append.mp ho with hmem | hmem
      · exact hobjs o hmem hB
      · simp only [List.mem_singleton] at hmem
        subst hmem
        exact hle hB
    | node b objs lvl c0 c1 c2 c3 =>
      obtain ⟨⟨hw, hh, hobjs⟩, hqs, hinvs⟩ := hInv
      refine ⟨⟨hw, hh, ?_⟩, hqs, hinvs⟩
      intro o ho hB
      rcases List.mem_append.mp ho with hmem | hmem
      · exact hobjs o hmem hB
      · simp only [List.mem_singleton] at hmem
        subst hmem
        exact hle hB
  | succ fuel ih =>
    intro t obj hInv hle
    cases t with
    | leaf b objs lvl =>
      obtain ⟨hw, hh, hobjs⟩ := hInv
      have hobjs1 : ∀ o ∈ objs ++ [obj],
          boundsLe o.toBounds B → boundsLe o.toBounds b := by
        intro o ho hB
        rcases List.mem_append.mp ho with hmem | hmem
        · exact hobjs o hmem hB
        · simp only [List.mem_singleton] at hmem
          subst hmem
          exact hle hB
      rw [insertAux]
      dsimp only
      split
      · have hq1 : ∀ k, (csGet (splitCs b lvl) k).bounds = quadBounds b k := by
          intro k; fin_cases k <;> rfl
        have hInv1 : ∀ k, Inv B (csGet (splitCs b lvl) k) := by
          intro k
          fin_cases k <;>
            exact ⟨(quadBounds_dims hw hh _).1, (quadBounds_dims hw hh _).2,
              by simp⟩
        have hmv := moveLoop_Inv B b (fun c o => insertAux fuel c o)
          (fun c o => insertAux_bounds fuel c o) (fun c o hc hb => ih c o hc hb)
          (objs ++ [obj]).length 0 (objs ++ [obj]) (splitCs b lvl) hobjs1 hq1 hInv1
        exact ⟨⟨hw, hh, hmv.1⟩, ⟨hmv.2.1 0, hmv.2.1 1, hmv.2.1 2, hmv.2.1 3⟩,
          hmv.2.2 0, hmv.2.2 1, hmv.2.2 2, hmv.2.2 3⟩
      · exact ⟨hw, hh, hobjs1⟩
    | node b objs lvl c0 c1 c2 c3 =>
      obtain ⟨⟨hw, hh, hobjs⟩, ⟨hq0, hq1, hq2, hq3⟩, hi0, hi1, hi2, hi3⟩ := hInv
      have hqk : ∀ j, (csGet (c0, c1, c2, c3) j).bounds = quadBounds b j := by
        intro j; fin_cases j <;> assumption
      have hik : ∀ j, Inv B (csGet (c0, c1, c2, c3) j) := by
        intro j; fin_cases j <;> assumption
      rw [insertAux]
      cases hk : getIndex b obj with
      | some k =>
        have hnew : Inv B (insertAux fuel (csGet (c0, c1, c2, c3) k) obj) := by
          refine ih _ _ (hik k) ?_
          intro hB
          rw [hqk k]
          exact getIndex_some_le hk (hle hB)
        have hbk : (insertAux fuel (csGet (c0, c1, c2, c3) k) obj).bounds
            = quadBounds b k := by
          rw [insertAux_bounds]
          exact hqk k
        fin_cases k
        · exact ⟨⟨hw, hh, hobjs⟩, ⟨hbk, hq1, hq2, hq3⟩, hnew, hi1, hi2, hi3⟩
        · exact ⟨⟨hw, hh, hobjs⟩, ⟨hq0, hbk, hq2, hq3⟩, hi0, hnew, hi2, hi3⟩
        · exact ⟨⟨hw, hh, hobjs⟩, ⟨hq0, hq1, hbk, hq3⟩, hi0, hi1, hnew, hi3⟩
        · exact ⟨⟨hw, hh, hobjs⟩, ⟨hq0, hq1, hq2, hbk⟩, hi0, hi1, hi2, hnew⟩
      | none =>
        have hobjs1 : ∀ o ∈ objs ++ [obj],
            boundsLe o.toBounds B → boundsLe o.toBounds b := by
          intro o ho hB
          rcases List.mem_append.mp ho with hmem | hmem
          · exact hobjs o hmem hB
          · simp only [List.mem_singleton] at hmem
            subst hmem
            exact hle hB
        dsimp only
        split
        · have hmv := moveLoop_Inv B b (fun c o => insertAux fuel c o)
            (fun c o => insertAux_bounds fuel c o) (fun c o hc hb => ih c o hc hb)
            (objs ++ [obj]).length 0 (objs ++ [obj]) (c0, c1, c2, c3) hobjs1 hqk hik
          exact ⟨⟨hw, hh, hmv.1⟩, ⟨hmv.2.1 0, hmv.2.1 1, hmv.2.1 2, hmv.2.1 3⟩,
            hmv.2.2 0, hmv.2.2 1, hmv.2.2 2, hmv.2.2 3⟩
        · exact ⟨⟨hw, hh, hobjs1⟩, ⟨hq0, hq1, hq2, hq3⟩, hi0, hi1, hi2, hi3⟩

theorem remove_Inv (B : Bounds) : ∀ (t : QuadTree) (obj : SpatialObject),
    Inv B t → Inv B (remove t obj).1 := by
  intro t obj
  induction t with
  | leaf b objs lvl =>
    intro hInv
    obtain ⟨hw, hh, hobjs⟩ := hInv
    rw [remove]
    cases hf : objs.findIdx? (fun o => o.id == obj.id) with
    | some i =>
      refine ⟨hw, hh, ?_⟩
      intro o ho hB
      obtain ⟨hi, -, -⟩ := List.findIdx?_eq_some_iff_getElem.mp hf
      exact hobjs o ((perm_getElem_cons_eraseIdx objs i hi).mem_iff.2
        (List.mem_cons_of_mem _ ho)) hB
    | none => exact ⟨hw, hh, hobjs⟩
  | node b objs lvl c0 c1 c2 c3 ih0 ih1 ih2 ih3 =>
    intro hInv
    obtain ⟨⟨hw, hh, hobjs⟩, ⟨hq0, hq1, hq2, hq3⟩, hi0, hi1, hi2, hi3⟩ := hInv
    rw [remove]
    cases hf : objs.findIdx? (fun o => o.id == obj.id) with
    | some i =>
      refine ⟨⟨hw, hh, ?_⟩, ⟨hq0, hq1, hq2, hq3⟩, hi0, hi1, hi2, hi3⟩
      intro o ho hB
      obtain ⟨hi, -, -⟩ := List.findIdx?_eq_some_iff_getElem.mp hf
      exact hobjs o ((perm_getElem_cons_eraseIdx objs i hi).mem_iff.2
        (List.mem_cons_of_mem _ ho)) hB
    | none =>
      cases hk : getIndex b obj with
      | some k =>
        fin_cases k <;> dsimp only
        · exact ⟨⟨hw, hh, hobjs⟩, ⟨by rw [remove_bounds]; exact hq0, hq1, hq2, hq3⟩,
            ih0 hi0, hi1, hi2, hi3⟩
        · exact ⟨⟨hw, hh, hobjs⟩, ⟨hq0, by rw [remove_bounds]; exact hq1, hq2, hq3⟩,
            hi0, ih1 hi1, hi2, hi3⟩
        · exact ⟨⟨hw, hh, hobjs⟩, ⟨hq0, hq1, by rw [remove_bounds]; exact hq2, hq3⟩,
            hi0, hi1, ih2 hi2, hi3⟩
        · exact ⟨⟨hw, hh, hobjs⟩, ⟨hq0, hq1, hq2, by rw [remove_bounds]; exact hq3⟩,
            hi0, hi1, hi2, ih3 hi3⟩
      | none =>
        dsimp only
        by_cases h0 : (remove c0 obj).2 <;> simp only [h0, if_true, if_false]
        · exact ⟨⟨hw, hh, hobjs⟩, ⟨by rw [remove_bounds]; exact hq0, hq1, hq2, hq3⟩,
            ih0 hi0, hi1, hi2, hi3⟩
        by_cases h1 : (remove c1 obj).2 <;> simp only [h1, if_true, if_false]
        · exact ⟨⟨hw, hh, hobjs⟩, ⟨hq0, by rw [remove_bounds]; exact hq1, hq2, hq3⟩,
            hi0, ih1 hi1, hi2, hi3⟩
        by_cases h2 : (remove c2 obj).2 <;> simp only [h2, if_true, if_false]
        · exact ⟨⟨hw, hh, hobjs⟩, ⟨hq0, hq1, by rw [remove_bounds]; exact hq2, hq3⟩,
            hi0, hi1, ih2 hi2, hi3⟩
        by_cases h3 : (remove c3 obj).2 <;> simp only [h3, if_true, if_false]
        · exact ⟨⟨hw, hh, hobjs⟩, ⟨hq0, hq1, hq2, by rw [remove_bounds]; exact hq3⟩,
            hi0, hi1, hi2, ih3 hi3⟩
        · exact ⟨⟨hw, hh, hobjs⟩, ⟨hq0, hq1, hq2, hq3⟩, hi0, hi1, hi2, hi3⟩

theorem runCount_Inv (B : Bounds) : ∀ (ops : List QOp) (t : QuadTree),
    Inv B t → t.bounds = B →
    Inv B (runCount t ops).1 ∧ (runCount t ops).1.bounds = B := by
  intro ops
  induction ops with
  | nil => intro t h1 h2; exact ⟨h1, h2⟩
  | cons op rest ih =>
    intro t h1 h2
    cases op with
    | ins o =>
      simp only [runCount]
      refine ih _ (insertAux_Inv B _ _ _ h1 ?_) ?_
      · intro hB
        rw [h2]
        exact hB
      · rw [insert, insertAux_bounds, h2]
    | rem o =>
      simp only [runCount]
      exact ih _ (remove_Inv B _ _ h1) (by rw [remove_bounds, h2])

theorem query_eq_filter (B : Bounds) : ∀ (t : QuadTree),
    Inv B t → boundsLe t.bounds B →
    query t B = (allObjects t).filter (fun o => intersects o.toBounds B) := by
  intro t
  induction t with
  | leaf b objs lvl =>
    intro hInv hle
    obtain ⟨hw, hh, -⟩ := hInv
    simp only [bounds] at hle
    rw [query, if_pos (intersects_of_boundsLe hle hw hh)]
    rfl
  | node b objs lvl c0 c1 c2 c3 ih0 ih1 ih2 ih3 =>
    intro hInv hle
    obtain ⟨⟨hw, hh, -⟩, ⟨hq0, hq1, hq2, hq3⟩, hi0, hi1, hi2, hi3⟩ := hInv
    simp only [bounds] at hle
    have hc : ∀ k : Fin 4, boundsLe (quadBounds b k) B :=
      fun k => boundsLe_trans (quadBounds_le hw hh k) hle
    rw [query, if_pos (intersects_of_boundsLe hle hw hh), allObjects]
    rw [ih0 hi0 (by rw [hq0]; exact hc 0), ih1 hi1 (by rw [hq1]; exact hc 1),
      ih2 hi2 (by rw [hq2]; exact hc 2), ih3 hi3 (by rw [hq3]; exact hc 3)]
    simp [List.filter_append]

theorem mem_queryPoint_aux (B : Bounds) (px py : ℚ) :
    ∀ (t : QuadTree), Inv B t →
      ∀ obj, obj ∈ allObjects t → boundsLe obj.toBounds B →
        pointInB obj.toBounds px py →
        obj ∈ query t ⟨px, py, 1, 1⟩ ∧ pointInB t.bounds px py := by
  have hptq : ∀ px py : ℚ, pointInB ⟨px, py, 1, 1⟩ px py := by
    intro px py
    refine ⟨le_refl _, ?_, le_refl _, ?_⟩ <;> dsimp only <;> linarith
  intro t
  induction t with
  | leaf b objs lvl =>
    intro hInv obj hmem hB hpt
    obtain ⟨hw, hh, hobjs⟩ := hInv
    have hob : boundsLe obj.toBounds b := hobjs obj hmem hB
    have hptb : pointInB b px py := pointInB_mono hob hpt
    constructor
    · rw [query, if_pos (intersects_of_pointInB hptb (hptq px py))]
      exact List.mem_filter.mpr ⟨hmem, intersects_of_pointInB hpt (hptq px py)⟩
    · exact hptb
  | node b objs lvl c0 c1 c2 c3 ih0 ih1 ih2 ih3 =>
    intro hInv obj hmem hB hpt
    obtain ⟨⟨hw, hh, hobjs⟩, ⟨hq0, hq1, hq2, hq3⟩, hi0, hi1, hi2, hi3⟩ := hInv
    have hcb : ∀ k : Fin 4, boundsLe (quadBounds b k) b := quadBounds_le hw hh
    simp only [allObjects, List.append_assoc, List.mem_append] at hmem
    have main :
        (obj ∈ objs.filter (fun o => intersects o.toBounds ⟨px, py, 1, 1⟩)
            ∨ obj ∈ query c0 ⟨px, py, 1, 1⟩ ∨ obj ∈ query c1 ⟨px, py, 1, 1⟩
            ∨ obj ∈ query c2 ⟨px, py, 1, 1⟩ ∨ obj ∈ query c3 ⟨px, py, 1, 1⟩)
          ∧ pointInB b px py := by
      rcases hmem with hmem | hmem | hmem | hmem | hmem
      · have hob : boundsLe obj.toBounds b := hobjs obj hmem hB
        exact ⟨Or.inl (List.mem_filter.mpr
            ⟨hmem, intersects_of_pointInB hpt (hptq px py)⟩),
          pointInB_mono hob hpt⟩
      · have h := ih0 hi0 obj hmem hB hpt
        have hb0 : boundsLe c0.bounds b := by rw [hq0]; exact hcb 0
        exact ⟨Or.inr (Or.inl h.1), pointInB_mono hb0 h.2⟩
      · have h := ih1 hi1 obj hmem hB hpt
        have hb1 : boundsLe c1.bounds b := by rw [hq1]; exact hcb 1
        exact ⟨Or.inr (Or.inr (Or.inl h.1)), pointInB_mono hb1 h.2⟩
      · have h := ih2 hi2 obj hmem hB hpt
        have hb2 : boundsLe c2.bounds b := by rw [hq2]; exact hcb 2
        exact ⟨Or.inr (Or.inr (Or.inr (Or.inl h.1))), pointInB_mono hb2 h.2⟩
      · have h := ih3 hi3 obj hmem hB hpt
        have hb3 : boundsLe c3.bounds b := by rw [hq3]; exact hcb 3
        exact ⟨Or.inr (Or.inr (Or.inr (Or.inr h.1))), pointInB_mono hb3 h.2⟩
    refine ⟨?_, main.2⟩
    rw [query, if_pos (intersects_of_pointInB main.2 (hptq px py))]
    simp only [List.append_assoc, List.mem_append]
    exact main.1

theorem queryPoint_subset_pointIn (t : QuadTree) (px py : ℚ)
    (obj : SpatialObject) (h : obj ∈ queryPoint t px py) :
    pointInB obj.toBounds px py := by
  obtain ⟨-, hp⟩ := List.mem_filter.mp h
  simp only [Bool.and_eq_true, decide_eq_true_eq, ge_iff_le] at hp
  exact ⟨hp.1.1.1, hp.1.1.2, hp.1.2, hp.2⟩

end QuadTree

/-- C10: QuadTree.insert performs no containment check against the tree's
root bounds. The object at (200,200,5,5) is entirely disjoint from the
0,0,128,128 root bounds, yet inserting it into an empty tree yields size 1,
while a query over the full root bounds returns the empty list — so
full-bounds query completeness holds only for objects whose rectangles
intersect the root bounds. -/
theorem c10_insert_no_containment :
    intersects (SpatialObject.toBounds ⟨"out", 200, 200, 5, 5⟩) ⟨0, 0, 128, 128⟩ = false
    ∧ ((QuadTree.new 0 0 128 128).insert ⟨"out", 200, 200, 5, 5⟩).size = 1
    ∧ ((QuadTree.new 0 0 128 128).insert ⟨"out", 200, 200, 5, 5⟩).query
        ⟨0, 0, 128, 128⟩ = [] := by
  refine ⟨?_, ?_, ?_⟩ <;> with_unfolding_all rfl

/-- C1 counterexample: after inserting (400,400,10,10) into an empty tree
with root bounds 0,0,256,256 the object is currently inserted (the stored
objects are exactly that one), yet query over the whole root bounds returns
the empty list — refuting, at this input, that query over the whole root
bounds returns exactly the set of currently-inserted objects for every call
sequence. -/
theorem c1_counterexample :
    QuadTree.allObjects ((QuadTree.new 0 0 256 256).insert ⟨"c1", 400, 400, 10, 10⟩)
        = [⟨"c1", 400, 400, 10, 10⟩]
    ∧ QuadTree.query ((QuadTree.new 0 0 256 256).insert ⟨"c1", 400, 400, 10, 10⟩)
        ⟨0, 0, 256, 256⟩ = [] := by
  constructor <;> with_unfolding_all rfl

/-- C2 counterexample: rectangle R at (300,300,10,10) inserted into a tree
with root bounds 0,0,256,256, and point (305,305): R is stored and the point
lies within R's inclusive bounds, yet queryPoint returns the empty list —
refuting, at this input, the claimed equivalence for every inserted
rectangle. -/
theorem c2_counterexample :
    QuadTree.allObjects ((QuadTree.new 0 0 256 256).insert ⟨"c2", 300, 300, 10, 10⟩)
        = [⟨"c2", 300, 300, 10, 10⟩]
    ∧ pointInB (SpatialObject.toBounds ⟨"c2", 300, 300, 10, 10⟩) 305 305
    ∧ QuadTree.queryPoint ((QuadTree.new 0 0 256 256).insert ⟨"c2", 300, 300, 10, 10⟩)
        305 305 = [] := by
  refine ⟨?_, ?_, ?_⟩
  · with_unfolding_all rfl
  · with_unfolding_all decide
  · with_unfolding_all rfl

/-- C5 counterexample: in c5Tree the identifier a5 is stored (under the
top-left quadrant after the split), and getIndex for the probe bounds
(40,1,2,2) selects quadrant 0, so remove recurses only into the empty
top-right child: it returns false and leaves the tree unchanged even though
an object with the requested id is present — refuting the claimed fallback
scan after a failed targeted recursion. -/
theorem c5_counterexample :
    (QuadTree.allObjects c5Tree).map SpatialObject.id
        = ["a0", "a1", "a2", "a3", "a4", "a5", "a6", "a7", "a8", "a9", "a10"]
    ∧ QuadTree.getIndex c5Tree.bounds ⟨"a5", 40, 1, 2, 2⟩ = some 0
    ∧ (c5Tree.remove ⟨"a5", 40, 1, 2, 2⟩).2 = false
    ∧ (c5Tree.remove ⟨"a5", 40, 1, 2, 2⟩).1 = c5Tree := by
  refine ⟨?_, ?_, ?_, ?_⟩ <;> with_unfolding_all rfl

/-- C9 counterexample: with layout L at position (50,60), registering shape
s with x 1, y 2 and explicit size 10 by 20 stores a bounding box positioned
at (1,2) — the shape's own coordinates — not offset to (51,62): the register
path in src/framework/NeaInteractive.ts applies no layout offset. -/
theorem c9_counterexample :
    (c9State.registeredShapes.lookup "s").map InteractiveShape.bounds
        = some ⟨1, 2, 10, 20⟩
    ∧ c9State.layoutConfigs.lookup "L" = some ⟨some 50, some 60, 200, 200⟩
    ∧ (1 : ℚ) ≠ 1 + 50
    ∧ (2 : ℚ) ≠ 2 + 60 := by
  refine ⟨?_, ?_, ?_, ?_⟩
  · with_unfolding_all rfl
  · with_unfolding_all rfl
  · with_unfolding_all decide
  · with_unfolding_all decide

/-- C3 counterexample: two identical markDirty(5000,5000,10,10) calls from a
fresh state. The rectangle lies outside the 4096 by 4096 root bounds of the
spatial index, so the second call's spatial query returns no candidate: after
it, a tracked region overlaps the new rectangle (they are identical), yet no
merge happens and the list holds two overlapping copies — refuting that a
merge occurs on every call where some tracked region overlaps the new one. -/
theorem c3_counterexample :
    c3State.dirtyRegions = [⟨5000, 5000, 10, 10⟩, ⟨5000, 5000, 10, 10⟩]
    ∧ NeaSmart.regionsOverlap ⟨5000, 5000, 10, 10⟩ ⟨5000, 5000, 10, 10⟩ = true := by
  constructor <;> with_unfolding_all rfl

/-- C4 counterexample: after the twenty-one out-of-root-bounds marks of
c4Marks, exactly one eviction has occurred and the oldest region
(5000,5000,10,10) was dropped from the flat list (its head is now the second
mark), but the spatial index still holds all twenty-one entries: the evicted
region's spatial entry was not removed, because the spatial query at its
rectangle misses entries outside the root bounds — refuting that the oldest
region is dropped from both the list and the spatial index. -/
theorem c4_counterexample :
    c4State.dirtyRegions.length = 20
    ∧ c4State.spatialDirtyIndex.size = 21
    ∧ c4State.dirtyRegions.head? = some ⟨5020, 5000, 10, 10⟩
    ∧ NeaSmart.evictedDuring {} c4Marks = [⟨5000, 5000, 10, 10⟩] := by
  refine ⟨?_, ?_, ?_, ?_⟩ <;> with_unfolding_all rfl

/-- C8: the canvas pool never grows beyond maxPoolSize (10): from any state
whose pool has at most 10 entries, returnCanvas evicts the entry at index 0
(the oldest inserted) when the pool is at capacity and only then appends the
returned canvas, so the pool stays at 10 or fewer entries; and getCanvas and
cleanup only ever shrink the pool. -/
theorem c8_pool_capacity (s : NeaSmart) (canvas : Nat) (width height now : ℚ)
    (hcap : s.canvasPool.length ≤ maxPoolSize) :
    (NeaSmart.returnCanvas s canvas width height now).canvasPool.length ≤ maxPoolSize
    ∧ (NeaSmart.returnCanvas s canvas width height now).canvasPool
        = (if s.canvasPool.length ≥ maxPoolSize then s.canvasPool.drop 1
            else s.canvasPool) ++ [⟨canvas, width, height, now⟩]
    ∧ (NeaSmart.getCanvas s width height).1.canvasPool.length ≤ s.canvasPool.length
    ∧ (NeaSmart.cleanup s now).canvasPool.length ≤ s.canvasPool.length := by
  refine ⟨?_, rfl, ?_, ?_⟩
  · simp only [maxPoolSize] at hcap
    simp only [NeaSmart.returnCanvas, maxPoolSize, List.length_append,
      List.length_singleton]
    split_ifs with h
    · simp only [List.length_drop]
      omega
    · omega
  · cases hf : s.canvasPool.findIdx? (fun item =>
        item.width == width && item.height == height) with
    | some poolIndex =>
      simp only [NeaSmart.getCanvas, hf, List.length_eraseIdx]
      split_ifs <;> omega
    | none => simp [NeaSmart.getCanvas, hf]
  · simpa [NeaSmart.cleanup] using List.length_filter_le _ s.canvasPool

/-- C8 witness: the capacity bound applied to the empty pool. -/
theorem c8_pool_capacity_witness :
    ({} : NeaSmart).canvasPool.length ≤ maxPoolSize
    ∧ ((NeaSmart.returnCanvas {} 7 100 50 0).canvasPool.length ≤ maxPoolSize
      ∧ (NeaSmart.returnCanvas {} 7 100 50 0).canvasPool
          = (if ({} : NeaSmart).canvasPool.length ≥ maxPoolSize
              then ({} : NeaSmart).canvasPool.drop 1
              else ({} : NeaSmart).canvasPool) ++ [⟨7, 100, 50, 0⟩]
      ∧ (NeaSmart.getCanvas {} 100 50).1.canvasPool.length
          ≤ ({} : NeaSmart).canvasPool.length
      ∧ (NeaSmart.cleanup {} 0).canvasPool.length
          ≤ ({} : NeaSmart).canvasPool.length) :=
  ⟨by decide, c8_pool_capacity {} 7 100 50 0 (by decide)⟩

/-- C7: queue raises UnknownTool for a shape name absent from the tool
registry and returns the state exactly as before the call — the registry
check precedes every mutation, so the draw queue, the metrics and the dirty
regions are untouched; for a registered shape name queue does not raise and
returns an operation id. -/
theorem c7_queue_unknown_tool (reg : ToolRegistry) (s : NeaSmart)
    (shape : String) (options : DrawConfig) (layoutName : String) :
    (reg.has shape = false →
      NeaSmart.queue reg s shape options layoutName
        = (.error (.unknownTool layoutName shape), s))
    ∧ (reg.has shape = true →
      ∃ opId s2, NeaSmart.queue reg s shape options layoutName = (.ok opId, s2)) := by
  constructor
  · intro h
    simp [NeaSmart.queue, h]
  · intro h
    unfold NeaSmart.queue
    simp only [h, Bool.not_true, Bool.false_eq_true, if_false]
    split_ifs
    · exact ⟨_, _, rfl⟩
    · exact ⟨_, _, rfl⟩

/-- C7 witness: a registry holding only rectangle rejects blob with the
state unchanged and accepts rectangle. -/
theorem c7_queue_unknown_tool_witness :
    NeaSmart.queue ⟨["rectangle"]⟩ {} "blob" {} "main"
        = (.error (.unknownTool "main" "blob"), ({} : NeaSmart))
    ∧ ∃ opId s2,
        NeaSmart.queue ⟨["rectangle"]⟩ {} "rectangle" {} "main" = (.ok opId, s2) :=
  ⟨(c7_queue_unknown_tool ⟨["rectangle"]⟩ {} "blob" {} "main").1 rfl,
    (c7_queue_unknown_tool ⟨["rectangle"]⟩ {} "rectangle" {} "main").2 rfl⟩

/-- C5 amended: remove matches by identifier in the current node's list
first; when that fails and the geometry of obj selects a quadrant, remove
recurses into that single child and the result of that targeted recursion is
final — found or not, no fallback runs; the scan of all children happens only
when the geometry selects no quadrant, so an object stored under a different
quadrant than the one selected by the bounds passed to remove is not found. -/
theorem c5_remove_targeted_descent (b : Bounds) (objs : List SpatialObject)
    (lvl : Nat) (c0 c1 c2 c3 : QuadTree) (obj : SpatialObject) (k : Fin 4)
    (hid : objs.findIdx? (fun o => o.id == obj.id) = none)
    (hk : QuadTree.getIndex b obj = some k) :
    QuadTree.remove (.node b objs lvl c0 c1 c2 c3) obj
      = (QuadTree.mkNode b objs lvl (QuadTree.csSet (c0, c1, c2, c3) k
          ((QuadTree.remove (QuadTree.csGet (c0, c1, c2, c3) k) obj).1)),
        (QuadTree.remove (QuadTree.csGet (c0, c1, c2, c3) k) obj).2) := by
  rw [QuadTree.remove, hid, hk]
  fin_cases k <;> rfl

/-- C5 witness: a node with an empty own list whose top-left child holds z;
remove called with id z but bounds selecting the empty top-right quadrant
descends only there and reports not-found. -/
theorem c5_remove_targeted_descent_witness :
    ([] : List SpatialObject).findIdx?
        (fun o => o.id == SpatialObject.id ⟨"z", 40, 1, 2, 2⟩) = none
    ∧ QuadTree.getIndex ⟨0, 0, 64, 64⟩ ⟨"z", 40, 1, 2, 2⟩ = some 0
    ∧ (QuadTree.remove
        (.node ⟨0, 0, 64, 64⟩ [] 0 (QuadTree.new 32 0 32 32 1)
          (.leaf ⟨0, 0, 32, 32⟩ [⟨"z", 1, 1, 2, 2⟩] 1)
          (QuadTree.new 0 32 32 32 1) (QuadTree.new 32 32 32 32 1))
        ⟨"z", 40, 1, 2, 2⟩).2 = false := by
  refine ⟨rfl, by with_unfolding_all rfl, ?_⟩
  rw [c5_remove_targeted_descent ⟨0, 0, 64, 64⟩ [] 0 (QuadTree.new 32 0 32 32 1)
    (.leaf ⟨0, 0, 32, 32⟩ [⟨"z", 1, 1, 2, 2⟩] 1) (QuadTree.new 0 32 32 32 1)
    (QuadTree.new 32 32 32 32 1) ⟨"z", 40, 1, 2, 2⟩ 0 rfl
    (by with_unfolding_all rfl)]
  with_unfolding_all rfl

theorem lookup_map_replace {α : Type} (k : String) (v : α) :
    ∀ (m : List (String × α)), m.any (fun p => p.1 == k) = true →
      (m.map (fun p => if p.1 == k then (k, v) else p)).lookup k = some v := by
  intro m
  induction m with
  | nil => simp
  | cons p rest ih =>
    intro h
    simp only [List.map_cons]
    by_cases hp : (p.1 == k) = true
    · rw [if_pos hp]
      simp [List.lookup]
    · rw [if_neg hp]
      have hk : (k == p.1) = false := by
        simp only [beq_iff_eq] at hp
        exact beq_eq_false_iff_ne.mpr (fun hh => hp hh.symm)
      simp only [List.lookup, hk]
      apply ih
      simpa [List.any_cons, hp] using h

theorem lookup_append_new {α : Type} (k : String) (v : α) :
    ∀ (m : List (String × α)), m.any (fun p => p.1 == k) = false →
      (m ++ [(k, v)]).lookup k = some v := by
  intro m
  induction m with
  | nil => simp [List.lookup]
  | cons p rest ih =>
    intro h
    simp only [List.any_cons, Bool.or_eq_false_iff] at h
    have hk : (k == p.1) = false :=
      beq_eq_false_iff_ne.mpr (fun hh => (beq_eq_false_iff_ne.mp h.1) hh.symm)
    simp only [List.cons_append, List.lookup, hk]
    exact ih h.2

theorem lookup_mapSet {α : Type} (m : List (String × α)) (k : String) (v : α) :
    (mapSet m k v).lookup k = some v := by
  unfold mapSet
  by_cases h : m.any (fun p => p.1 == k)
  · rw [if_pos h]
    exact lookup_map_replace k v m h
  · rw [if_neg h]
    exact lookup_append_new k v m (Bool.eq_false_iff.mpr h)

/-- C9 amended: a shape is registered iff its options carry at least one
event handler; the registered box uses explicit width and height when given,
radius times two for both dimensions when radius is given (overriding them),
radiusX times two by radiusY times two when both are given (overriding
radius), and 100 by 100 when none apply — but its position is the shape's own
x and y, NOT offset by the owning layout's position (the layout config is
stored alongside the shape without being applied to the box); re-registering
an existing shapeId removes the prior spatial-index entry before inserting
the new one. -/
theorem c9_register_rules (s : NeaInteractive) (shapeId : String)
    (options : DrawConfig) (layoutName : String) :
    (¬ (options.onClick || options.onHover ||
        NeaInteractive.hasTouchHandlers options) = true →
      NeaInteractive.set s shapeId options layoutName = s)
    ∧ ((options.onClick || options.onHover ||
        NeaInteractive.hasTouchHandlers options) = true →
      (NeaInteractive.set s shapeId options layoutName).registeredShapes.lookup shapeId
        = some ⟨shapeId, options, layoutName,
            NeaInteractive.calculateShapeBounds options,
            (s.layoutConfigs.lookup layoutName).getD ⟨some 0, some 0, 0, 0⟩⟩)
    ∧ (NeaInteractive.calculateShapeBounds options).x = options.x
    ∧ (NeaInteractive.calculateShapeBounds options).y = options.y
    ∧ (options.radius = none →
        (options.radiusX = none ∨ options.radiusY = none) →
        NeaInteractive.calculateShapeBounds options
          = ⟨options.x, options.y, options.width.getD 100, options.height.getD 100⟩)
    ∧ (∀ r, options.radius = some r →
        (options.radiusX = none ∨ options.radiusY = none) →
        NeaInteractive.calculateShapeBounds options
          = ⟨options.x, options.y, r * 2, r * 2⟩)
    ∧ (∀ rx ry, options.radiusX = some rx → options.radiusY = some ry →
        NeaInteractive.calculateShapeBounds options
          = ⟨options.x, options.y, rx * 2, ry * 2⟩)
    ∧ (∀ existingShape,
        s.registeredShapes.lookup shapeId = some existingShape →
        (options.onClick || options.onHover ||
          NeaInteractive.hasTouchHandlers options) = true →
        (NeaInteractive.set s shapeId options layoutName).spatialIndex
          = ((s.spatialIndex.remove ⟨shapeId, existingShape.bounds.x,
              existingShape.bounds.y, existingShape.bounds.width,
              existingShape.bounds.height⟩).1).insert
              ⟨shapeId, (NeaInteractive.calculateShapeBounds options).x,
                (NeaInteractive.calculateShapeBounds options).y,
                (NeaInteractive.calculateShapeBounds options).width,
                (NeaInteractive.calculateShapeBounds options).height⟩) := by
  refine ⟨?_, ?_, rfl, rfl, ?_, ?_, ?_, ?_⟩
  · intro h
    simp only [NeaInteractive.set, if_neg h]
  · intro h
    simp only [NeaInteractive.set, if_pos h]
    exact lookup_mapSet _ _ _
  · intro hr hxy
    unfold NeaInteractive.calculateShapeBounds
    rw [hr]
    rcases hxy with hx | hy
    · rw [hx]
      cases options.width <;> cases options.height <;> rfl
    · rw [hy]
      cases options.radiusX <;> cases options.width <;> cases options.height <;> rfl
  · intro r hr hxy
    unfold NeaInteractive.calculateShapeBounds
    rw [hr]
    rcases hxy with hx | hy
    · rw [hx]
    · rw [hy]
      cases options.radiusX <;> rfl
  · intro rx ry hx hy
    unfold NeaInteractive.calculateShapeBounds
    rw [hx, hy]
  · intro existingShape hlook h
    simp only [NeaInteractive.set, if_pos h, hlook]

/-- C9 witness: the register rule applied to c9Options in layout L. -/
theorem c9_register_rules_witness :
    ((c9Options.onClick || c9Options.onHover ||
        NeaInteractive.hasTouchHandlers c9Options) = true)
    ∧ (NeaInteractive.set (NeaInteractive.setLayoutConfig {} "L"
          ⟨some 50, some 60, 200, 200⟩) "s" c9Options "L").registeredShapes.lookup "s"
        = some ⟨"s", c9Options, "L", NeaInteractive.calculateShapeBounds c9Options,
            ((NeaInteractive.setLayoutConfig {} "L"
                ⟨some 50, some 60, 200, 200⟩).layoutConfigs.lookup "L").getD
              ⟨some 0, some 0, 0, 0⟩⟩ :=
  ⟨rfl, (c9_register_rules (NeaInteractive.setLayoutConfig {} "L"
      ⟨some 50, some 60, 200, 200⟩) "s" c9Options "L").2.1 rfl⟩

theorem queue_registered (reg : ToolRegistry) (s : NeaSmart) (shape : String)
    (options : DrawConfig) (layoutName : String) (h : reg.has shape = true) :
    (∃ opId, (NeaSmart.queue reg s shape options layoutName).1 = .ok opId)
    ∧ (NeaSmart.queue reg s shape options layoutName).2.drawQueue.length
        = if s.drawQueue.length + 1 ≥ maxQueueSize then 0
          else s.drawQueue.length + 1 := by
  unfold NeaSmart.queue
  simp only [h, Bool.not_true, Bool.false_eq_true, if_false]
  by_cases hlen : s.drawQueue.length + 1 ≥ maxQueueSize
  · have hc : (s.drawQueue ++ [(⟨shape, options, s.tick,
        shape ++ "_" ++ toString s.tick⟩ : DrawOperation)]).length ≥ maxQueueSize := by
      simpa [List.length_append] using hlen
    rw [if_pos hc]
    refine ⟨⟨_, rfl⟩, ?_⟩
    rw [if_pos hlen]
    simp [NeaSmart.flush, List.isEmpty_iff]
  · have hc : ¬ (s.drawQueue ++ [(⟨shape, options, s.tick,
        shape ++ "_" ++ toString s.tick⟩ : DrawOperation)]).length ≥ maxQueueSize := by
      simpa [List.length_append] using hlen
    rw [if_neg hc]
    refine ⟨⟨_, rfl⟩, ?_⟩
    rw [if_neg hlen]
    simp [List.length_append]

theorem queueRun_spec (reg : ToolRegistry) :
    ∀ (shapes : List String) (s : NeaSmart),
      (∀ sh ∈ shapes, reg.has sh = true) →
      s.drawQueue.length < maxQueueSize →
      ∃ sf, NeaSmart.queueRun reg s shapes
          = some (sf, (s.drawQueue.length + shapes.length) / maxQueueSize)
        ∧ sf.drawQueue.length
          = (s.drawQueue.length + shapes.length) % maxQueueSize := by
  intro shapes
  induction shapes with
  | nil =>
    intro s hvalid hlen
    refine ⟨s, ?_, ?_⟩
    · simp [NeaSmart.queueRun, Nat.div_eq_of_lt hlen]
    · simp [Nat.mod_eq_of_lt hlen]
  | cons shape rest ih =>
    intro s hvalid hlen
    have hsh : reg.has shape = true := hvalid shape (by simp)
    obtain ⟨⟨opId, hok⟩, hqlen⟩ := queue_registered reg s shape {} "unknown" hsh
    rw [NeaSmart.queueRun]
    rw [hok]
    have hnext : (NeaSmart.queue reg s shape {}).2.drawQueue.length < maxQueueSize := by
      rw [hqlen]
      split_ifs
      · simp [maxQueueSize]
      · simp only [maxQueueSize] at *
        omega
    obtain ⟨sf, hrun, hflen⟩ := ih (NeaSmart.queue reg s shape {}).2
      (fun sh hm => hvalid sh (List.mem_cons_of_mem _ hm)) hnext
    rw [hrun]
    refine ⟨sf, ?_, ?_⟩
    · have harith :
          (if s.drawQueue.length + 1 ≥ maxQueueSize then 1 else 0)
              + ((NeaSmart.queue reg s shape {}).2.drawQueue.length + rest.length)
                / maxQueueSize
            = (s.drawQueue.length + (rest.length + 1)) / maxQueueSize := by
        rw [hqlen]
        simp only [maxQueueSize] at *
        split_ifs with hcond
        · omega
        · omega
      simp only [List.length_cons]
      rw [← harith]
    · rw [hflen, hqlen]
      simp only [maxQueueSize, List.length_cons] at *
      split_ifs with hcond
      · omega
      · omega

/-- C6: with maxQueueSize 50, queueing 51 operations with registered shape
names from a fresh state triggers exactly one automatic flush, which happens
immediately after the 50th enqueue (the 50-call prefix already shows one
flush and an empty queue) and leaves exactly one operation queued after the
51st call; and flush clears the queue unconditionally, also when no drawing
context is supplied — the queued operations are discarded, never retried. -/
theorem c6_queue_autoflush (reg : ToolRegistry) (shapes : List String)
    (hlen : shapes.length = 51)
    (hvalid : ∀ sh ∈ shapes, reg.has sh = true) :
    (∃ s50, NeaSmart.queueRun reg {} (shapes.take 50) = some (s50, 1)
      ∧ s50.drawQueue.length = 0)
    ∧ (∃ s51, NeaSmart.queueRun reg {} shapes = some (s51, 1)
      ∧ s51.drawQueue.length = 1)
    ∧ ∀ (s : NeaSmart) (ctx : Option Unit), (NeaSmart.flush s ctx).drawQueue = [] := by
  refine ⟨?_, ?_, ?_⟩
  · have hv : ∀ sh ∈ shapes.take 50, reg.has sh = true :=
      fun sh hm => hvalid sh (List.take_subset _ _ hm)
    obtain ⟨sf, h1, h2⟩ := queueRun_spec reg (shapes.take 50) {} hv
      (by simp [maxQueueSize])
    have hl : (shapes.take 50).length = 50 := by
      rw [List.length_take]
      omega
    refine ⟨sf, ?_, ?_⟩
    · rw [h1, hl]
      rfl
    · rw [h2, hl]
      rfl
  · obtain ⟨sf, h1, h2⟩ := queueRun_spec reg shapes {} hvalid
      (by simp [maxQueueSize])
    refine ⟨sf, ?_, ?_⟩
    · rw [h1, hlen]
      rfl
    · rw [h2, hlen]
      rfl
  · intro s ctx
    unfold NeaSmart.flush
    split_ifs with h
    · simpa [List.isEmpty_iff] using h
    · rfl

/-- C6 witness: fifty-one rectangle operations against a registry holding
rectangle. -/
theorem c6_queue_autoflush_witness :
    (List.replicate 51 "rectangle").length = 51
    ∧ ((∃ s50, NeaSmart.queueRun ⟨["rectangle"]⟩ {}
          ((List.replicate 51 "rectangle").take 50) = some (s50, 1)
        ∧ s50.drawQueue.length = 0)
      ∧ (∃ s51, NeaSmart.queueRun ⟨["rectangle"]⟩ {}
          (List.replicate 51 "rectangle") = some (s51, 1)
        ∧ s51.drawQueue.length = 1)
      ∧ ∀ (s : NeaSmart) (ctx : Option Unit),
          (NeaSmart.flush s ctx).drawQueue = []) :=
  ⟨by decide,
    c6_queue_autoflush ⟨["rectangle"]⟩ (List.replicate 51 "rectangle") (by decide)
      (fun sh hm => by rw [List.eq_of_mem_replicate hm]; rfl)⟩

/-- C1 amended: over any sequence of insert and remove calls starting from a
fresh tree with nonnegative dimensions, the number of stored objects equals
the number of inserts minus the number of removes that returned true (a
remove that does not find its target leaves the tree unchanged); each insert
stores exactly one copy of its object; and a query over the full root bounds
returns exactly the stored objects whose rectangles intersect the root
bounds — an object inserted wholly outside the root bounds is counted by
size but missed by that query. -/
theorem c1_size_query (x y w h : ℚ) (hw : 0 ≤ w) (hh : 0 ≤ h)
    (ops : List QOp) :
    (QuadTree.size (runOps (QuadTree.new x y w h) ops)
        + (runCount (QuadTree.new x y w h) ops).2.2
      = (runCount (QuadTree.new x y w h) ops).2.1)
    ∧ (∀ (t : QuadTree) (obj : SpatialObject),
        (QuadTree.allObjects (t.insert obj) : Multiset SpatialObject)
          = obj ::ₘ ↑(QuadTree.allObjects t))
    ∧ QuadTree.query (runOps (QuadTree.new x y w h) ops) ⟨x, y, w, h⟩
      = (QuadTree.allObjects (runOps (QuadTree.new x y w h) ops)).filter
          (fun o => intersects o.toBounds ⟨x, y, w, h⟩) := by
  have hnew : QuadTree.Inv ⟨x, y, w, h⟩ (QuadTree.new x y w h) := by
    refine ⟨hw, hh, ?_⟩
    intro o hm
    cases hm
  have hrun := QuadTree.runCount_Inv ⟨x, y, w, h⟩ ops (QuadTree.new x y w h) hnew rfl
  refine ⟨?_, fun t obj => QuadTree.insert_multiset t obj, ?_⟩
  · have hs := QuadTree.size_runCount ops (QuadTree.new x y w h)
    have h0 : QuadTree.size (QuadTree.new x y w h) = 0 := rfl
    unfold runOps
    omega
  · unfold runOps
    refine QuadTree.query_eq_filter ⟨x, y, w, h⟩ _ hrun.1 ?_
    rw [hrun.2]
    exact boundsLe_refl _

/-- C1 witness: two inserts into a fresh 0,0,64,64 tree, one of them out of
bounds; the full-bounds query equals the intersection filter of the store. -/
theorem c1_size_query_witness :
    (0 : ℚ) ≤ 64
    ∧ QuadTree.query (runOps (QuadTree.new 0 0 64 64)
          [.ins ⟨"a", 1, 1, 2, 2⟩, .ins ⟨"c", 200, 200, 5, 5⟩]) ⟨0, 0, 64, 64⟩
        = (QuadTree.allObjects (runOps (QuadTree.new 0 0 64 64)
            [.ins ⟨"a", 1, 1, 2, 2⟩, .ins ⟨"c", 200, 200, 5, 5⟩])).filter
            (fun o => intersects o.toBounds ⟨0, 0, 64, 64⟩) :=
  ⟨by with_unfolding_all decide,
    (c1_size_query 0 0 64 64 (by with_unfolding_all decide)
      (by with_unfolding_all decide)
      [.ins ⟨"a", 1, 1, 2, 2⟩, .ins ⟨"c", 200, 200, 5, 5⟩]).2.2⟩

/-- C2 amended: on any tree built by replaying calls on a fresh tree with
nonnegative dimensions, queryPoint at (px, py) contains every stored object
whose inclusive bounds contain the point PROVIDED the object lies inside the
root bounds (for objects outside the root bounds the containment can fail,
see the counterexample), and conversely every object returned by queryPoint
contains the point in its inclusive bounds. -/
theorem c2_queryPoint (x y w h : ℚ) (hw : 0 ≤ w) (hh : 0 ≤ h)
    (ops : List QOp) (px py : ℚ) (obj : SpatialObject) :
    (obj ∈ QuadTree.allObjects (runOps (QuadTree.new x y w h) ops) →
      boundsLe obj.toBounds ⟨x, y, w, h⟩ →
      pointInB obj.toBounds px py →
      obj ∈ QuadTree.queryPoint (runOps (QuadTree.new x y w h) ops) px py)
    ∧ (obj ∈ QuadTree.queryPoint (runOps (QuadTree.new x y w h) ops) px py →
      pointInB obj.toBounds px py) := by
  have hnew : QuadTree.Inv ⟨x, y, w, h⟩ (QuadTree.new x y w h) := by
    refine ⟨hw, hh, ?_⟩
    intro o hm
    cases hm
  have hrun := QuadTree.runCount_Inv ⟨x, y, w, h⟩ ops (QuadTree.new x y w h) hnew rfl
  constructor
  · intro hmem hB hpt
    have hq := QuadTree.mem_queryPoint_aux ⟨x, y, w, h⟩ px py
      (runOps (QuadTree.new x y w h) ops) hrun.1 obj hmem hB hpt
    unfold QuadTree.queryPoint
    refine List.mem_filter.mpr ⟨hq.1, ?_⟩
    obtain ⟨h1, h2, h3, h4⟩ := hpt
    simp only [Bool.and_eq_true, decide_eq_true_eq, ge_iff_le]
    exact ⟨⟨⟨h1, h2⟩, h3⟩, h4⟩
  · exact QuadTree.queryPoint_subset_pointIn _ px py obj

/-- C2 witness: an in-bounds rectangle is found by queryPoint at an interior
point. -/
theorem c2_queryPoint_witness :
    (0 : ℚ) ≤ 64
    ∧ (⟨"a", 1, 1, 2, 2⟩ : SpatialObject) ∈ QuadTree.queryPoint
        (runOps (QuadTree.new 0 0 64 64) [.ins ⟨"a", 1, 1, 2, 2⟩]) 2 2 :=
  ⟨by with_unfolding_all decide,
    (c2_queryPoint 0 0 64 64 (by with_unfolding_all decide)
        (by with_unfolding_all decide) [.ins ⟨"a", 1, 1, 2, 2⟩] 2 2
        ⟨"a", 1, 1, 2, 2⟩).1
      (by
        have hl : QuadTree.allObjects (runOps (QuadTree.new 0 0 64 64)
            [.ins ⟨"a", 1, 1, 2, 2⟩]) = [⟨"a", 1, 1, 2, 2⟩] := by
          with_unfolding_all rfl
        rw [hl]
        exact List.mem_singleton.mpr rfl)
      (by with_unfolding_all decide)
      (by with_unfolding_all decide)⟩



theorem inRegion_mergeRegions_left (r1 r2 : DirtyRegion) (px py : ℚ)
    (hp : inRegion px py r1) : inRegion px py (NeaSmart.mergeRegions r1 r2) := by
  obtain ⟨h1, h2, h3, h4⟩ := hp
  refine ⟨?_, ?_, ?_, ?_⟩ <;>
    simp only [NeaSmart.mergeRegions] <;>
    linarith [min_le_left r1.x r2.x, le_max_left (r1.x + r1.width) (r2.x + r2.width),
      min_le_left r1.y r2.y, le_max_left (r1.y + r1.height) (r2.y + r2.height)]

theorem inRegion_mergeRegions_right (r1 r2 : DirtyRegion) (px py : ℚ)
    (hp : inRegion px py r2) : inRegion px py (NeaSmart.mergeRegions r1 r2) := by
  obtain ⟨h1, h2, h3, h4⟩ := hp
  refine ⟨?_, ?_, ?_, ?_⟩ <;>
    simp only [NeaSmart.mergeRegions] <;>
    linarith [min_le_right r1.x r2.x, le_max_right (r1.x + r1.width) (r2.x + r2.width),
      min_le_right r1.y r2.y, le_max_right (r1.y + r1.height) (r2.y + r2.height)]

theorem mem_set_self {α : Type} (l : List α) (i : Nat) (a : α) (h : i < l.length) :
    a ∈ l.set i a := by
  refine List.mem_iff_getElem.mpr ⟨i, ?_, ?_⟩
  · rw [List.length_set]; exact h
  · simp [List.getElem_set]

theorem mem_set_ne {α : Type} (l : List α) (i j : Nat) (a : α) (hj : j < l.length)
    (hne : j ≠ i) : l[j] ∈ l.set i a := by
  refine List.mem_iff_getElem.mpr ⟨j, ?_, ?_⟩
  · rw [List.length_set]; exact hj
  · simp [List.getElem_set, hne, Ne.symm hne]

theorem get?_eq_some_iff {α : Type} (l : List α) (i : Nat) (a : α) :
    l.get? i = some a ↔ ∃ h : i < l.length, l[i] = a := by
  rw [List.get?_eq_some]
  constructor
  · rintro ⟨h, hg⟩
    exact ⟨h, by simpa [List.get_eq_getElem] using hg⟩
  · rintro ⟨h, hg⟩
    exact ⟨h, by simpa [List.get_eq_getElem] using hg⟩

namespace NeaSmart

theorem evaluateMergeCandidate_spec (dr : List DirtyRegion) (so : SpatialObject)
    (nr : DirtyRegion) (r : DirtyRegion) (i : Nat) (a : ℚ)
    (h : evaluateMergeCandidate dr so nr = some (r, i, a)) :
    dr.get? i = some r ∧ regionsOverlap r nr = true
      ∧ a = (mergeRegions r nr).width * (mergeRegions r nr).height := by
  unfold evaluateMergeCandidate at h
  split at h
  · exact absurd h (by simp)
  next regionIndex hidx =>
    split at h
    · exact absurd h (by simp)
    next existingRegion hget =>
      split at h
      case isTrue hov =>
        simp only [Option.some.injEq, Prod.mk.injEq] at h
        obtain ⟨h1, h2, h3⟩ := h
        subst h1
        subst h2
        subst h3
        exact ⟨hget, hov, rfl⟩
      case isFalse hov => exact absurd h (by simp)

end NeaSmart



namespace NeaSmart

theorem findBest_fold_spec (dr : List DirtyRegion) (nr : DirtyRegion) :
    ∀ (l : List SpatialObject) (acc : Option MergeCand) (c : MergeCand),
      l.foldl (findBestStep dr nr) acc = some c →
      (acc = some c
        ∨ (dr.get? c.index = some c.region ∧ regionsOverlap c.region nr = true
            ∧ c.area = (mergeRegions c.region nr).width * (mergeRegions c.region nr).height))
      ∧ (∀ so ∈ l, ∀ r i a,
          evaluateMergeCandidate dr so nr = some (r, i, a) → c.area ≤ a)
      ∧ (∀ b, acc = some b → c.area ≤ b.area) := by
  intro l
  induction l with
  | nil =>
    intro acc c h
    simp only [List.foldl_nil] at h
    refine ⟨Or.inl h, ?_, ?_⟩
    · intro so hso
      cases hso
    · intro b hb
      rw [h] at hb
      cases hb
      exact le_refl _
  | cons so l ih =>
    intro acc c h
    simp only [List.foldl_cons] at h
    obtain ⟨hmain, hrest, hacc⟩ := ih (findBestStep dr nr acc so) c h
    rcases heval : evaluateMergeCandidate dr so nr with - | ⟨r, i, a⟩
    · have hs : findBestStep dr nr acc so = acc := by
        simp [findBestStep, heval]
      rw [hs] at hmain hacc
      refine ⟨hmain, ?_, hacc⟩
      intro so' hso' r i a hev
      rcases List.mem_cons.mp hso' with hso' | hso'
      · subst hso'
        rw [heval] at hev
        cases hev
      · exact hrest so' hso' r i a hev
    · have hGood := evaluateMergeCandidate_spec dr so nr r i a heval
      rcases acc with - | b
      · have hs : findBestStep dr nr none so = some ⟨r, i, so.id, a⟩ := by
          simp [findBestStep, heval]
        rw [hs] at hmain hacc
        have hnew : c.area ≤ a := hacc ⟨r, i, so.id, a⟩ rfl
        refine ⟨?_, ?_, ?_⟩
        · rcases hmain with hmain | hmain
          · cases hmain
            exact Or.inr ⟨hGood.1, hGood.2.1, hGood.2.2⟩
          · exact Or.inr hmain
        · intro so' hso' r' i' a' hev
          rcases List.mem_cons.mp hso' with hso' | hso'
          · subst hso'
            rw [heval] at hev
            cases hev
            exact hnew
          · exact hrest so' hso' r' i' a' hev
        · intro b hb
          cases hb
      · by_cases hlt : a < b.area
        · have hs : findBestStep dr nr (some b) so = some ⟨r, i, so.id, a⟩ := by
            simp [findBestStep, heval, hlt]
          rw [hs] at hmain hacc
          have hnew : c.area ≤ a := hacc ⟨r, i, so.id, a⟩ rfl
          refine ⟨?_, ?_, ?_⟩
          · rcases hmain with hmain | hmain
            · cases hmain
              exact Or.inr ⟨hGood.1, hGood.2.1, hGood.2.2⟩
            · exact Or.inr hmain
          · intro so' hso' r' i' a' hev
            rcases List.mem_cons.mp hso' with hso' | hso'
            · subst hso'
              rw [heval] at hev
              cases hev
              exact hnew
            · exact hrest so' hso' r' i' a' hev
          · intro b' hb'
            cases hb'
            exact le_trans hnew (le_of_lt hlt)
        · have hs : findBestStep dr nr (some b) so = some b := by
            simp [findBestStep, heval, hlt]
          rw [hs] at hmain hacc
          refine ⟨hmain, ?_, ?_⟩
          · intro so' hso' r' i' a' hev
            rcases List.mem_cons.mp hso' with hso' | hso'
            · subst hso'
              rw [heval] at hev
              cases hev
              exact le_trans (hacc b rfl) (not_lt.mp hlt)
            · exact hrest so' hso' r' i' a' hev
          · intro b' hb'
            cases hb'
            exact hacc b rfl

theorem findBestMergeCandidate_spec (dr : List DirtyRegion) (nr : DirtyRegion)
    (l : List SpatialObject) (c : MergeCand)
    (h : findBestMergeCandidate dr nr l = some c) :
    (dr.get? c.index = some c.region ∧ regionsOverlap c.region nr = true
      ∧ c.area = (mergeRegions c.region nr).width * (mergeRegions c.region nr).height)
    ∧ ∀ so ∈ l, ∀ r i a,
        evaluateMergeCandidate dr so nr = some (r, i, a) → c.area ≤ a := by
  obtain ⟨hmain, hrest, -⟩ := findBest_fold_spec dr nr l none c h
  refine ⟨?_, hrest⟩
  rcases hmain with hmain | hmain
  · cases hmain
  · exact hmain

theorem cleanup_dirtyRegions (s : NeaSmart) (old : DirtyRegion)
    (rest : List DirtyRegion) (h : s.dirtyRegions = old :: rest) :
    (cleanupOldestDirtyRegion s).dirtyRegions = rest := by
  unfold cleanupOldestDirtyRegion
  simp only [h]
  split <;> rfl

theorem cleanup_spatial_none (s : NeaSmart) (old : DirtyRegion)
    (rest : List DirtyRegion) (h : s.dirtyRegions = old :: rest)
    (hfind : (s.spatialDirtyIndex.query old.toBounds).find? (fun c =>
        c.x == old.x && c.y == old.y && c.width == old.width
          && c.height == old.height) = none) :
    (cleanupOldestDirtyRegion s).spatialDirtyIndex = s.spatialDirtyIndex := by
  unfold cleanupOldestDirtyRegion
  simp only [h]
  rw [hfind]

end NeaSmart



namespace NeaSmart

theorem cover_append_case (s : NeaSmart) (x y w h px py : ℚ)
    (hp : (∃ r ∈ s.dirtyRegions, inRegion px py r) ∨ inRegion px py ⟨x, y, w, h⟩)
    (hC : (if (s.spatialDirtyIndex.query ⟨x, y, w, h⟩).length > 0 then
        findBestMergeCandidate s.dirtyRegions ⟨x, y, w, h⟩
          (s.spatialDirtyIndex.query ⟨x, y, w, h⟩) else none) = none) :
    (∃ r ∈ (markDirty s x y w h).dirtyRegions, inRegion px py r)
    ∨ ∃ r ∈ (evictedBy s x y w h).toList, inRegion px py r := by
  obtain ⟨dq, cp, dr, sp, mets, tk⟩ := s
  simp only [markDirty, evictedBy]
  rw [hC]
  dsimp only
  by_cases hlen : (dr ++ [(⟨x, y, w, h⟩ : DirtyRegion)]).length > maxDirtyRegions
  · rw [if_pos hlen, if_pos hlen]
    rcases hds : dr with - | ⟨old, rest⟩
    · rw [hds] at hlen
      norm_num [maxDirtyRegions] at hlen
    · subst hds
      rw [cleanup_dirtyRegions _ old (rest ++ [⟨x, y, w, h⟩]) (by simp)]
      rw [List.cons_append, List.head?_cons]
      rcases hp with ⟨r0, hr0, hpr0⟩ | hp
      · rcases List.mem_cons.mp hr0 with hr0 | hr0
        · subst hr0
          exact Or.inr ⟨r0, by simp, hpr0⟩
        · exact Or.inl ⟨r0, List.mem_append_left _ hr0, hpr0⟩
      · exact Or.inl ⟨⟨x, y, w, h⟩, List.mem_append_right _ (by simp), hp⟩
  · rw [if_neg hlen, if_neg hlen]
    left
    rcases hp with ⟨r0, hr0, hpr0⟩ | hp
    · exact ⟨r0, List.mem_append_left _ hr0, hpr0⟩
    · exact ⟨⟨x, y, w, h⟩, List.mem_append_right _ (by simp), hp⟩

theorem markDirty_cover (s : NeaSmart) (x y w h px py : ℚ)
    (hp : (∃ r ∈ s.dirtyRegions, inRegion px py r) ∨ inRegion px py ⟨x, y, w, h⟩) :
    (∃ r ∈ (markDirty s x y w h).dirtyRegions, inRegion px py r)
    ∨ ∃ r ∈ (evictedBy s x y w h).toList, inRegion px py r := by
  obtain ⟨dq, cp, dr, sp, mets, tk⟩ := s
  by_cases hq : (sp.query ⟨x, y, w, h⟩).length > 0
  · rcases hfb : findBestMergeCandidate dr ⟨x, y, w, h⟩ (sp.query ⟨x, y, w, h⟩)
        with - | cand
    · refine cover_append_case ⟨dq, cp, dr, sp, mets, tk⟩ x y w h px py hp ?_
      show (if (sp.query ⟨x, y, w, h⟩).length > 0 then
          findBestMergeCandidate dr ⟨x, y, w, h⟩ (sp.query ⟨x, y, w, h⟩)
        else none) = none
      rw [if_pos hq, hfb]
    · obtain ⟨⟨hget, hovl, harea⟩, hmin⟩ :=
        findBestMergeCandidate_spec dr ⟨x, y, w, h⟩ _ cand hfb
      obtain ⟨hlt, hgetE⟩ := (get?_eq_some_iff _ _ _).mp hget
      left
      simp only [markDirty]
      rw [if_pos hq, hfb]
      dsimp only
      simp only [performSpatialMerge]
      rcases hp with ⟨r0, hr0, hpr0⟩ | hp
      · obtain ⟨j, hj, hr0e⟩ := List.mem_iff_getElem.mp hr0
        by_cases hji : j = cand.index
        · subst hji
          refine ⟨mergeRegions cand.region ⟨x, y, w, h⟩, mem_set_self _ _ _ hj, ?_⟩
          apply inRegion_mergeRegions_left
          have hrc : r0 = cand.region := hr0e.symm.trans hgetE
          rw [← hrc]
          exact hpr0
        · exact ⟨r0, by rw [← hr0e]; exact mem_set_ne _ _ _ _ hj hji, hpr0⟩
      · exact ⟨mergeRegions cand.region ⟨x, y, w, h⟩, mem_set_self _ _ _ hlt,
          inRegion_mergeRegions_right _ _ _ _ hp⟩
  · refine cover_append_case ⟨dq, cp, dr, sp, mets, tk⟩ x y w h px py hp ?_
    show (if (sp.query ⟨x, y, w, h⟩).length > 0 then
        findBestMergeCandidate dr ⟨x, y, w, h⟩ (sp.query ⟨x, y, w, h⟩)
      else none) = none
    exact if_neg hq

theorem evictedBy_fifo (s : NeaSmart) (x y w h : ℚ) (r : DirtyRegion)
    (he : evictedBy s x y w h = some r) :
    (s.dirtyRegions ++ [(⟨x, y, w, h⟩ : DirtyRegion)]).head? = some r
    ∧ (markDirty s x y w h).dirtyRegions
        = (s.dirtyRegions ++ [(⟨x, y, w, h⟩ : DirtyRegion)]).tail := by
  obtain ⟨dq, cp, dr, sp, mets, tk⟩ := s
  unfold evictedBy at he
  dsimp only at he
  simp only [markDirty]
  rcases hC : (if (sp.query ⟨x, y, w, h⟩).length > 0 then
      findBestMergeCandidate dr ⟨x, y, w, h⟩ (sp.query ⟨x, y, w, h⟩)
    else none) with - | cand
  · rw [hC] at he
    dsimp only at he ⊢
    split at he
    next hlen =>
      refine ⟨he, ?_⟩
      rw [if_pos hlen]
      rcases hds : dr with - | ⟨old, rest⟩
      · rw [hds] at hlen
        norm_num [maxDirtyRegions] at hlen
      · subst hds
        rw [cleanup_dirtyRegions _ old (rest ++ [⟨x, y, w, h⟩]) (by simp)]
        simp
    next hlen => cases he
  · rw [hC] at he
    dsimp only at he
    cases he

theorem runMarks_cover : ∀ (marks : List DirtyRegion) (s : NeaSmart) (px py : ℚ),
    ((∃ r ∈ s.dirtyRegions, inRegion px py r) ∨ ∃ m ∈ marks, inRegion px py m) →
    (∃ r ∈ (runMarks s marks).dirtyRegions, inRegion px py r)
    ∨ ∃ r ∈ evictedDuring s marks, inRegion px py r := by
  intro marks
  induction marks with
  | nil =>
    intro s px py hp
    rcases hp with hp | ⟨m, hm, -⟩
    · exact Or.inl hp
    · cases hm
  | cons mk rest ih =>
    intro s px py hp
    simp only [runMarks, evictedDuring]
    have step : (∃ r ∈ s.dirtyRegions, inRegion px py r) ∨ inRegion px py mk →
        (∃ r ∈ (runMarks (s.markDirty mk.x mk.y mk.width mk.height) rest).dirtyRegions,
          inRegion px py r)
        ∨ ∃ r ∈ (s.evictedBy mk.x mk.y mk.width mk.height).toList
            ++ evictedDuring (s.markDirty mk.x mk.y mk.width mk.height) rest,
            inRegion px py r := by
      intro hpp
      rcases markDirty_cover s mk.x mk.y mk.width mk.height px py hpp with hstep | hstep
      · rcases ih (s.markDirty mk.x mk.y mk.width mk.height) px py (Or.inl hstep)
            with hh | ⟨r, hr1, hr2⟩
        · exact Or.inl hh
        · exact Or.inr ⟨r, List.mem_append_right _ hr1, hr2⟩
      · obtain ⟨r, hr1, hr2⟩ := hstep
        exact Or.inr ⟨r, List.mem_append_left _ hr1, hr2⟩
    rcases hp with hp | ⟨m, hm, hpm⟩
    · exact step (Or.inl hp)
    · rcases List.mem_cons.mp hm with hm | hm
      · subst hm
        exact step (Or.inr hpm)
      · rcases ih (s.markDirty mk.x mk.y mk.width mk.height) px py
            (Or.inr ⟨m, hm, hpm⟩) with hh | ⟨r, hr1, hr2⟩
        · exact Or.inl hh
        · exact Or.inr ⟨r, List.mem_append_right _ hr1, hr2⟩

end NeaSmart



/-- C3 amended: markDirty takes the merge path only when the spatial query at
the new rectangle (run against the dirty index whose root bounds are
0,0,4096,4096, so overlapping tracked regions can be missed — see the
counterexample) returns at least one entry and findBestMergeCandidate yields
a candidate; in that case exactly one existing region is replaced in place by
the bounding-box union, the flat list keeps its length (no second merge, no
append), the spatial index drops the candidate's old entry and inserts the
merged rectangle under the fresh region id, the candidate's slot indeed held
its region, that region overlaps the new rectangle, and the candidate's
merged area is minimal among all evaluated candidates. -/
theorem c3_merge_path (s : NeaSmart) (x y w h : ℚ) (cand : NeaSmart.MergeCand)
    (hov : (s.spatialDirtyIndex.query ⟨x, y, w, h⟩).length > 0)
    (hc : NeaSmart.findBestMergeCandidate s.dirtyRegions ⟨x, y, w, h⟩
        (s.spatialDirtyIndex.query ⟨x, y, w, h⟩) = some cand) :
    (NeaSmart.markDirty s x y w h).dirtyRegions
        = s.dirtyRegions.set cand.index
            (NeaSmart.mergeRegions cand.region ⟨x, y, w, h⟩)
    ∧ (NeaSmart.markDirty s x y w h).dirtyRegions.length = s.dirtyRegions.length
    ∧ (NeaSmart.markDirty s x y w h).spatialDirtyIndex
        = ((s.spatialDirtyIndex.remove ⟨cand.spatialId, cand.region.x,
            cand.region.y, cand.region.width, cand.region.height⟩).1).insert
            ⟨"dirty_" ++ toString s.tick,
              (NeaSmart.mergeRegions cand.region ⟨x, y, w, h⟩).x,
              (NeaSmart.mergeRegions cand.region ⟨x, y, w, h⟩).y,
              (NeaSmart.mergeRegions cand.region ⟨x, y, w, h⟩).width,
              (NeaSmart.mergeRegions cand.region ⟨x, y, w, h⟩).height⟩
    ∧ s.dirtyRegions.get? cand.index = some cand.region
    ∧ NeaSmart.regionsOverlap cand.region ⟨x, y, w, h⟩ = true
    ∧ ∀ so ∈ s.spatialDirtyIndex.query ⟨x, y, w, h⟩, ∀ r i a,
        NeaSmart.evaluateMergeCandidate s.dirtyRegions so ⟨x, y, w, h⟩
          = some (r, i, a) → cand.area ≤ a := by
  obtain ⟨dq, cp, dr, sp, mets, tk⟩ := s
  dsimp only at hov hc ⊢
  obtain ⟨⟨hget, hovl, harea⟩, hmin⟩ :=
    NeaSmart.findBestMergeCandidate_spec dr ⟨x, y, w, h⟩ _ cand hc
  refine ⟨?_, ?_, ?_, hget, hovl, hmin⟩
  · simp only [NeaSmart.markDirty]
    rw [if_pos hov, hc]
    simp only [NeaSmart.performSpatialMerge]
  · simp only [NeaSmart.markDirty]
    rw [if_pos hov, hc]
    simp only [NeaSmart.performSpatialMerge]
    simp [List.length_set]
  · simp only [NeaSmart.markDirty]
    rw [if_pos hov, hc]
    simp only [NeaSmart.performSpatialMerge]

/-- C3 witness: marking (0,0,10,10) on a fresh state, then (5,5,10,10):
the spatial query finds the first region, the best candidate is that region
at slot 0 with merged area 225, and the second call replaces slot 0 with the
union. -/
theorem c3_merge_path_witness :
    ((NeaSmart.markDirty {} 0 0 10 10).spatialDirtyIndex.query
        ⟨5, 5, 10, 10⟩).length > 0
    ∧ NeaSmart.findBestMergeCandidate
        (NeaSmart.markDirty {} 0 0 10 10).dirtyRegions ⟨5, 5, 10, 10⟩
        ((NeaSmart.markDirty {} 0 0 10 10).spatialDirtyIndex.query
          ⟨5, 5, 10, 10⟩) = some ⟨⟨0, 0, 10, 10⟩, 0, "dirty_0", 225⟩
    ∧ (NeaSmart.markDirty (NeaSmart.markDirty {} 0 0 10 10) 5 5 10 10).dirtyRegions
        = (NeaSmart.markDirty {} 0 0 10 10).dirtyRegions.set 0
            (NeaSmart.mergeRegions ⟨0, 0, 10, 10⟩ ⟨5, 5, 10, 10⟩) :=
  ⟨by with_unfolding_all decide, by with_unfolding_all rfl,
    (c3_merge_path (NeaSmart.markDirty {} 0 0 10 10) 5 5 10 10
      ⟨⟨0, 0, 10, 10⟩, 0, "dirty_0", 225⟩ (by with_unfolding_all decide)
      (by with_unfolding_all rfl)).1⟩

/-- C4 amended: over any markDirty replay from a fresh state, every marked
point is covered by the final dirty-region list or by some region evicted
along the way (coverage modulo the documented cap loss); when an eviction
fires, the evicted region is the FIFO-oldest — the head of the list with the
new region appended — and the flat list drops exactly that head; but the
spatial-index removal inside cleanupOldestDirtyRegion is conditional on an
exact-geometry match among the spatial query results at the oldest region's
rectangle, and when that query misses (e.g. the region lies outside the
spatial root bounds 0,0,4096,4096) the spatial index is left unchanged: the
stale entry is not dropped, contrary to the claim. -/
theorem c4_dirty_coverage (marks : List DirtyRegion) (px py : ℚ)
    (hp : ∃ m ∈ marks, inRegion px py m) :
    ((∃ r ∈ (NeaSmart.runMarks {} marks).dirtyRegions, inRegion px py r)
      ∨ ∃ r ∈ NeaSmart.evictedDuring {} marks, inRegion px py r)
    ∧ (∀ (s : NeaSmart) (x y w h : ℚ) (r : DirtyRegion),
        NeaSmart.evictedBy s x y w h = some r →
        (s.dirtyRegions ++ [(⟨x, y, w, h⟩ : DirtyRegion)]).head? = some r
        ∧ (NeaSmart.markDirty s x y w h).dirtyRegions
            = (s.dirtyRegions ++ [(⟨x, y, w, h⟩ : DirtyRegion)]).tail)
    ∧ (∀ (s : NeaSmart) (old : DirtyRegion) (rest : List DirtyRegion),
        s.dirtyRegions = old :: rest →
        (s.spatialDirtyIndex.query old.toBounds).find? (fun c =>
            c.x == old.x && c.y == old.y && c.width == old.width
              && c.height == old.height) = none →
        (NeaSmart.cleanupOldestDirtyRegion s).dirtyRegions = rest
        ∧ (NeaSmart.cleanupOldestDirtyRegion s).spatialDirtyIndex
            = s.spatialDirtyIndex) := by
  refine ⟨?_, ?_, ?_⟩
  · exact NeaSmart.runMarks_cover marks {} px py (Or.inr hp)
  · intro s x y w h r he
    exact NeaSmart.evictedBy_fifo s x y w h r he
  · intro s old rest hds hfind
    exact ⟨NeaSmart.cleanup_dirtyRegions s old rest hds,
      NeaSmart.cleanup_spatial_none s old rest hds hfind⟩

/-- C4 witness: one mark at (1,1,2,2) from a fresh state covers its interior
point (2,2). -/
theorem c4_dirty_coverage_witness :
    (∃ m ∈ [(⟨1, 1, 2, 2⟩ : DirtyRegion)], inRegion 2 2 m)
    ∧ ((∃ r ∈ (NeaSmart.runMarks {} [⟨1, 1, 2, 2⟩]).dirtyRegions, inRegion 2 2 r)
      ∨ ∃ r ∈ NeaSmart.evictedDuring {} [⟨1, 1, 2, 2⟩], inRegion 2 2 r) :=
  ⟨⟨⟨1, 1, 2, 2⟩, by simp, by with_unfolding_all decide⟩,
    (c4_dirty_coverage [⟨1, 1, 2, 2⟩] 2 2
      ⟨⟨1, 1, 2, 2⟩, by simp, by with_unfolding_all decide⟩).1⟩

end NeaCanvas
